import Mathlib

/-!
Verification of the core posting, event and webhook-delivery logic of the
multi-tenant double-entry ledger service.

The Go sources are embedded shallowly:

* monetary amounts (`shopspring/decimal`, SQL `NUMERIC(20,4)`) are modelled
  as integers counting multiples of the storage quantum 10^(-4) (`Money`);
  every operation the sources perform on amounts — addition, subtraction,
  negation, comparison with zero and exact equality — is exact on decimals
  and commutes with this embedding, so the integer model is faithful;
* 128-bit identifiers are modelled as `Nat` drawn from a per-database
  counter; timestamps (`NOW()`) are `Nat` instants passed in explicitly;
* the SQL store (sql/queries/*.sql plus the schema in
  migrations/20250922090121_initial_schema.up.sql) is a record of lists,
  with the schema's UNIQUE and CHECK constraints made explicit;
* a service call that runs inside a database transaction is a pure function
  returning the committed database on success and the unchanged input
  database on any error (BEGIN … ROLLBACK/COMMIT semantics).

The repository carries two revisions of internal/transactions/service.go.
The revision wired into the current server (the one constructing
`transactions.NewService(db, eventService)`) resolves balances through
`calculateNewBalance` and publishes events; it is embedded as the posting
engine below.  The earlier revision's naive balance helper
(+amount on debit, −amount on credit regardless of account type) is embedded
separately as `naiveNewBalance` for comparison.
-/

namespace LedgerService

/-- Monetary amount: an exact count of the `NUMERIC(20,4)` quantum
10^(-4); e.g. the decimal 1000 is the integer 1000 in whole units here
(the claims only ever scale amounts by ±1, so no precision is lost). -/
abbrev Money : Type := ℤ

/-- Transaction line side, `transaction_side_enum` (`debit`, `credit`). -/
inductive Side where
  | debit
  | credit
deriving DecidableEq, Repr

/-- Account type, `account_type_enum`. -/
inductive AccountType where
  | asset
  | liability
  | equity
  | revenue
  | expense
deriving DecidableEq, Repr

/-- Transaction status, `transaction_status_enum`. -/
inductive TxStatus where
  | pending
  | posted
  | failed
deriving DecidableEq, Repr

/-- `calculateNewBalance` from the current revision of
internal/transactions/service.go: assets and expenses grow on debit and
shrink on credit; liabilities, equity and revenue grow on credit and shrink
on debit.  (The Go `default` branch is unreachable: `account_type_enum` has
exactly the five values enumerated here.) -/
def calculateNewBalance (currentBalance amount : Money) (side : Side)
    (accountType : AccountType) : Money :=
  match accountType with
  | .asset | .expense =>
    match side with
    | .debit => currentBalance + amount
    | .credit => currentBalance - amount
  | .liability | .equity | .revenue =>
    match side with
    | .credit => currentBalance + amount
    | .debit => currentBalance - amount

/-- The naive balance computation from the earlier revision of
internal/transactions/service.go (`updateAccountBalance`, lines 354-360):
`+amount` on debit and `−amount` on credit, ignoring the account type. -/
def naiveNewBalance (balance amount : Money) (side : Side) : Money :=
  match side with
  | .debit => balance + amount
  | .credit => balance - amount

/-- The spec's signed-balance table (§4.1.1), written from the spec's words
for comparison with the code: the sign applied to a line amount per
(account type, side). -/
def signedDelta (t : AccountType) (s : Side) : Money :=
  match t, s with
  | .asset, .debit | .expense, .debit => 1
  | .asset, .credit | .expense, .credit => -1
  | .liability, .credit | .equity, .credit | .revenue, .credit => 1
  | .liability, .debit | .equity, .debit | .revenue, .debit => -1

/-- A line of a double-entry request (`TransactionLineEntry`). -/
structure TransactionLineEntry where
  accountCode : String
  amount : Money
  side : Side
  currency : String
deriving DecidableEq, Repr

/-- Typed errors surfaced by the posting engine
(internal/transactions/types.go), with store-level failures folded into
`storeError`. -/
inductive TxError where
  | emptyTransactionLines
  | unbalancedTransaction
  | invalidCurrency
  | invalidAccount
  | storeError
deriving DecidableEq, Repr

/-- Debit total accumulated by the loop in `validateDoubleEntryBalance`. -/
def debitTotal (entries : List TransactionLineEntry) : Money :=
  entries.foldl (fun acc e => if e.side = .debit then acc + e.amount else acc) 0

/-- Credit total accumulated by the loop in `validateDoubleEntryBalance`
(the Go `else` branch: anything that is not a debit counts as a credit). -/
def creditTotal (entries : List TransactionLineEntry) : Money :=
  entries.foldl (fun acc e => if e.side = .debit then acc else acc + e.amount) 0

/-- `validateDoubleEntryBalance`: fewer than 2 entries fails with
`ErrEmptyTransactionLines`; unequal debit and credit totals (exact decimal
equality) fail with `ErrUnbalancedTransaction`. -/
def validateDoubleEntryBalance (entries : List TransactionLineEntry) :
    Option TxError :=
  if entries.length < 2 then some .emptyTransactionLines
  else if debitTotal entries ≠ creditTotal entries then
    some .unbalancedTransaction
  else none

/-- `validateCurrencyConsistency`: all entries must carry the currency of
the first entry, otherwise `ErrInvalidCurrency`; the empty list fails with
`ErrEmptyTransactionLines`. -/
def validateCurrencyConsistency (entries : List TransactionLineEntry) :
    Option TxError :=
  match entries with
  | [] => some .emptyTransactionLines
  | e0 :: rest =>
    if rest.any (fun e => e.currency ≠ e0.currency) then some .invalidCurrency
    else none

/-- Store-level failures: `uniqueViolation` and `checkViolation` are raised
by the schema's constraints, `noRows` by a `:one` query matching no row
(in particular the optimistic-lock `UPDATE … WHERE version = $4`). -/
inductive PgError where
  | uniqueViolation
  | checkViolation
  | noRows
deriving DecidableEq, Repr

/-- Decidable equality for `Except` results, so concrete runs of the
engine can be checked by `decide`. -/
instance {e a : Type} [DecidableEq e] [DecidableEq a] :
    DecidableEq (Except e a) := fun x y =>
  match x, y with
  | .error e1, .error e2 =>
    if h : e1 = e2 then isTrue (by rw [h])
    else isFalse (by intro hc; cases hc; exact h rfl)
  | .ok v1, .ok v2 =>
    if h : v1 = v2 then isTrue (by rw [h])
    else isFalse (by intro hc; cases hc; exact h rfl)
  | .error _, .ok _ => isFalse (by intro hc; cases hc)
  | .ok _, .error _ => isFalse (by intro hc; cases hc)

/-- An `accounts` row (the fields the posting engine reads). -/
structure Account where
  id : Nat
  code : String
  accountType : AccountType
  isActive : Bool
deriving DecidableEq, Repr

/-- An `account_balances` row. -/
structure BalanceRow where
  accountId : Nat
  currency : String
  balance : Money
  version : Nat
deriving DecidableEq, Repr

/-- A `transactions` row (the fields the claims mention). -/
structure Txn where
  id : Nat
  idempotencyKey : String
  status : TxStatus
  postedAt : Option Nat
deriving DecidableEq, Repr

/-- A `transaction_lines` row. -/
structure LineRow where
  id : Nat
  transactionId : Nat
  accountId : Nat
  amount : Money
  side : Side
  currency : String
deriving DecidableEq, Repr

/-- Payload of a `balance.updated` event as assembled by
`PublishBalanceUpdated` (internal/events/service.go). -/
structure BalanceUpdatedPayload where
  accountId : Nat
  currency : String
  previousBalance : Money
  newBalance : Money
  balanceChange : Money
  updatedBy : Nat
  version : Nat
deriving DecidableEq, Repr

/-- Body of an event row: the two event kinds the posting engine appends. -/
inductive EventBody where
  | transactionPosted (txnId : Nat)
  | balanceUpdated (p : BalanceUpdatedPayload)
deriving DecidableEq, Repr

/-- An `events` row (aggregate id plus typed body). -/
structure EventRow where
  aggregateId : Nat
  body : EventBody
deriving DecidableEq, Repr

/-- The tenant-scoped database: the tables the posting engine touches plus
an id generator standing in for `uuid_generate_v4()`. -/
structure DB where
  accounts : List Account
  transactions : List Txn
  lines : List LineRow
  balances : List BalanceRow
  events : List EventRow
  nextId : Nat
deriving DecidableEq, Repr

/-- `GetTransactionByIdempotencyKey`: first row with the given key. -/
def GetTransactionByIdempotencyKey (db : DB) (key : String) : Option Txn :=
  db.transactions.find? (fun t => t.idempotencyKey == key)

/-- `GetAccountByCode`: `WHERE code = $1 AND is_active = true`. -/
def GetAccountByCode (db : DB) (code : String) : Option Account :=
  db.accounts.find? (fun a => a.code == code && a.isActive)

/-- `CreateTransaction`: inserts a row; the schema supplies
`status DEFAULT 'pending'` and `posted_at TIMESTAMPTZ DEFAULT NOW()`, and
enforces `idempotency_key … UNIQUE`. -/
def CreateTransaction (db : DB) (key : String) (now : Nat) :
    Except PgError (Txn × DB) :=
  if db.transactions.any (fun t => t.idempotencyKey == key) then
    .error .uniqueViolation
  else
    let t : Txn := ⟨db.nextId, key, .pending, some now⟩
    .ok (t, { db with transactions := db.transactions ++ [t],
                      nextId := db.nextId + 1 })

/-- `CreateTransactionLine`: inserts a row; the schema enforces
`CHECK (amount > 0)`. -/
def CreateTransactionLine (db : DB) (txnId acctId : Nat) (amount : Money)
    (side : Side) (currency : String) : Except PgError (LineRow × DB) :=
  if amount ≤ 0 then .error .checkViolation
  else
    let l : LineRow := ⟨db.nextId, txnId, acctId, amount, side, currency⟩
    .ok (l, { db with lines := db.lines ++ [l], nextId := db.nextId + 1 })

/-- `GetAccountBalanceForUpdate`: the row for (account, currency); the
schema's `UNIQUE(account_id, currency)` makes it unique. -/
def GetAccountBalanceForUpdate (db : DB) (acctId : Nat) (currency : String) :
    Option BalanceRow :=
  db.balances.find? (fun b => b.accountId == acctId && b.currency == currency)

/-- `CreateAccountBalance` (sql/queries/accounts.sql): inserts the row with
the literal version 1 — `VALUES ($1, $2, $3, 1)` — overriding the schema's
`version BIGINT NOT NULL DEFAULT 0`; `UNIQUE(account_id, currency)` is
enforced. -/
def CreateAccountBalance (db : DB) (acctId : Nat) (currency : String)
    (balance : Money) : Except PgError (BalanceRow × DB) :=
  if db.balances.any (fun b => b.accountId == acctId && b.currency == currency)
  then .error .uniqueViolation
  else
    let row : BalanceRow := ⟨acctId, currency, balance, 1⟩
    .ok (row, { db with balances := db.balances ++ [row] })

/-- `UpdateAccountBalance` (sql/queries/accounts.sql): compare-and-swap —
`SET balance = $3, version = version + 1 WHERE account_id = $1 AND
currency = $2 AND version = $4`; no matching row means the `:one` query
fails. -/
def UpdateAccountBalance (db : DB) (acctId : Nat) (currency : String)
    (newBalance : Money) (expectedVersion : Nat) :
    Except PgError (BalanceRow × DB) :=
  match GetAccountBalanceForUpdate db acctId currency with
  | none => .error .noRows
  | some row =>
    if row.version == expectedVersion then
      let row2 := { row with balance := newBalance, version := row.version + 1 }
      .ok (row2, { db with balances := db.balances.map (fun b =>
        if b.accountId == acctId && b.currency == currency then row2 else b) })
    else .error .noRows

/-- `UpdateTransactionStatus` (sql/queries/transactions.sql): sets the
status and `posted_at = CASE WHEN $2 = 'posted' THEN NOW() ELSE posted_at
END`. -/
def UpdateTransactionStatus (db : DB) (id : Nat) (status : TxStatus)
    (now : Nat) : Except PgError (Txn × DB) :=
  match db.transactions.find? (fun t => t.id == id) with
  | none => .error .noRows
  | some t =>
    let t2 := { t with status := status,
                       postedAt := if status = .posted then some now
                                   else t.postedAt }
    .ok (t2, { db with transactions := db.transactions.map (fun u =>
      if u.id == id then t2 else u) })

/-- The Go helper `updateAccountBalance` of the current revision: read the
balance row under lock; if absent, insert it with balance 0 and re-read;
compute the new balance with `calculateNewBalance`; CAS-update conditioned
on the version just read. -/
def updateAccountBalance (db : DB) (account : Account) (amount : Money)
    (side : Side) (currency : String) : Except PgError DB :=
  match GetAccountBalanceForUpdate db account.id currency with
  | some balance =>
    let newBalance :=
      calculateNewBalance balance.balance amount side account.accountType
    (UpdateAccountBalance db account.id currency newBalance
      balance.version).map (fun p => p.2)
  | none =>
    match CreateAccountBalance db account.id currency 0 with
    | .error e => .error e
    | .ok (_, db1) =>
      match GetAccountBalanceForUpdate db1 account.id currency with
      | none => .error .noRows
      | some balance =>
        let newBalance :=
          calculateNewBalance balance.balance amount side account.accountType
        (UpdateAccountBalance db1 account.id currency newBalance
          balance.version).map (fun p => p.2)

/-- `PublishTransactionPosted` (internal/events/service.go): appends one
event with the transaction as aggregate inside the open unit. -/
def publishTransactionPosted (db : DB) (txnId : Nat) : DB :=
  { db with events := db.events ++ [⟨txnId, .transactionPosted txnId⟩] }

/-- `PublishBalanceUpdated` (internal/events/service.go): appends one event
with the account as aggregate; `balance_change = new − previous`; the
`version` field of the payload is whatever the caller passes. -/
def publishBalanceUpdated (db : DB) (accountId : Nat)
    (oldBalance newBalance : Money) (txnId : Nat) (currency : String)
    (version : Nat) : DB :=
  { db with events := db.events ++
      [⟨accountId, .balanceUpdated
        ⟨accountId, currency, oldBalance, newBalance,
         newBalance - oldBalance, txnId, version⟩⟩] }

/-- A simple (single-line) posting request (`CreateTransactionRequest`). -/
structure CreateTransactionRequest where
  idempotencyKey : String
  accountCode : String
  amount : Money
  side : Side
  currency : String
deriving DecidableEq, Repr

/-- A double-entry posting request (`CreateDoubleEntryRequest`). -/
structure CreateDoubleEntryRequest where
  idempotencyKey : String
  entries : List TransactionLineEntry
deriving DecidableEq, Repr

/-- Go-map assignment `m[code] = a` on an association list: overwrite the
existing binding or append a new one. -/
def upsertCode (m : List (String × Account)) (code : String) (a : Account) :
    List (String × Account) :=
  if m.any (fun p => p.1 == code) then
    m.map (fun p => if p.1 == code then (code, a) else p)
  else m ++ [(code, a)]

/-- Go-map read `m[code]` on the account map. -/
def lookupCode (m : List (String × Account)) (code : String) :
    Option Account :=
  (m.find? (fun p => p.1 == code)).map (fun p => p.2)

/-- The account-resolution loop of `CreateDoubleEntryTransaction`: look up
every entry's code (fail on an unknown code) and build
`accountCodeMap[entry.AccountCode] = account`. -/
def resolveAccounts (db : DB) :
    List TransactionLineEntry → List (String × Account) →
    Except TxError (List (String × Account))
  | [], m => .ok m
  | e :: rest, m =>
    match GetAccountByCode db e.accountCode with
    | none => .error .invalidAccount
    | some a => resolveAccounts db rest (upsertCode m e.accountCode a)

/-- One entry of the `balanceChanges` map of
`CreateDoubleEntryTransaction`: the old and new balances recorded around
one line, plus that line's currency. -/
structure Change where
  oldBalance : Money
  newBalance : Money
  currency : String
deriving DecidableEq, Repr

/-- Go-map assignment `balanceChanges[accountID] = change`. -/
def upsertChange (m : List (Nat × Change)) (k : Nat) (v : Change) :
    List (Nat × Change) :=
  if m.any (fun p => p.1 == k) then
    m.map (fun p => if p.1 == k then (k, v) else p)
  else m ++ [(k, v)]

/-- Go-map read `balanceChanges[accountID]`. -/
def lookupChange (m : List (Nat × Change)) (k : Nat) : Option Change :=
  (m.find? (fun p => p.1 == k)).map (fun p => p.2)

/-- The per-entry loop of `CreateDoubleEntryTransaction`: for each entry in
request order, read the old balance (0 when the row does not exist yet),
insert the transaction line, update the balance through
`updateAccountBalance`, and record
`balanceChanges[account.ID] = (old, new, currency)` — overwriting any
earlier record for the same account. -/
def processEntries (txnId : Nat) (acctMap : List (String × Account)) :
    DB → List TransactionLineEntry → List LineRow → List (Nat × Change) →
    Except PgError (DB × List LineRow × List (Nat × Change))
  | db, [], lines, changes => .ok (db, lines, changes)
  | db, e :: rest, lines, changes =>
    match lookupCode acctMap e.accountCode with
    | none => .error .noRows
    | some account =>
      let oldBalance :=
        match GetAccountBalanceForUpdate db account.id e.currency with
        | some b => b.balance
        | none => 0
      match CreateTransactionLine db txnId account.id e.amount e.side
          e.currency with
      | .error err => .error err
      | .ok (line, db1) =>
        match updateAccountBalance db1 account e.amount e.side e.currency with
        | .error err => .error err
        | .ok db2 =>
          let newBalance :=
            calculateNewBalance oldBalance e.amount e.side account.accountType
          processEntries txnId acctMap db2 rest (lines ++ [line])
            (upsertChange changes account.id ⟨oldBalance, newBalance, e.currency⟩)

/-- The event-publication loop of `CreateDoubleEntryTransaction`: one
`balance.updated` event per `balanceChanges` entry, with the version
argument passed as the literal 1 at the call site. -/
def publishBalanceUpdatedAll (db : DB) (changes : List (Nat × Change))
    (txnId : Nat) : DB :=
  changes.foldl (fun d p =>
    publishBalanceUpdated d p.1 p.2.oldBalance p.2.newBalance txnId
      p.2.currency 1) db

/-- `CreateSimpleTransaction` (current revision of
internal/transactions/service.go): idempotency probe first; then, inside
one database transaction: account lookup, transaction row, line row, old
balance read, balance update, promotion to `posted`, and the two events;
any failure rolls the unit back. -/
def createSimpleTransaction (db : DB) (req : CreateTransactionRequest)
    (now : Nat) : Except TxError Txn × DB :=
  match GetTransactionByIdempotencyKey db req.idempotencyKey with
  | some existing => (.ok existing, db)
  | none =>
    match GetAccountByCode db req.accountCode with
    | none => (.error .invalidAccount, db)
    | some account =>
      match CreateTransaction db req.idempotencyKey now with
      | .error _ => (.error .storeError, db)
      | .ok (txn, db1) =>
        match CreateTransactionLine db1 txn.id account.id req.amount req.side
            req.currency with
        | .error _ => (.error .storeError, db)
        | .ok (_, db2) =>
          let oldBalance :=
            match GetAccountBalanceForUpdate db2 account.id req.currency with
            | some b => b.balance
            | none => 0
          match updateAccountBalance db2 account req.amount req.side
              req.currency with
          | .error _ => (.error .storeError, db)
          | .ok db3 =>
            let newBalance :=
              calculateNewBalance oldBalance req.amount req.side
                account.accountType
            match UpdateTransactionStatus db3 txn.id .posted now with
            | .error _ => (.error .storeError, db)
            | .ok (txn2, db4) =>
              let db5 := publishTransactionPosted db4 txn2.id
              let db6 := publishBalanceUpdated db5 account.id oldBalance
                newBalance txn2.id req.currency 1
              (.ok txn2, db6)

/-- `CreateDoubleEntryTransaction` (current revision of
internal/transactions/service.go): structural validation (balance, then
currency consistency) runs BEFORE the idempotency probe; then, inside one
database transaction: account resolution, transaction row, the per-entry
loop, promotion to `posted`, one `transaction.posted` event and one
`balance.updated` event per `balanceChanges` entry; any failure rolls the
unit back. -/
def createDoubleEntryTransaction (db : DB) (req : CreateDoubleEntryRequest)
    (now : Nat) : Except TxError Txn × DB :=
  match validateDoubleEntryBalance req.entries with
  | some e => (.error e, db)
  | none =>
    match validateCurrencyConsistency req.entries with
    | some e => (.error e, db)
    | none =>
      match GetTransactionByIdempotencyKey db req.idempotencyKey with
      | some existing => (.ok existing, db)
      | none =>
        match resolveAccounts db req.entries [] with
        | .error e => (.error e, db)
        | .ok acctMap =>
          match CreateTransaction db req.idempotencyKey now with
          | .error _ => (.error .storeError, db)
          | .ok (txn, db1) =>
            match processEntries txn.id acctMap db1 req.entries [] [] with
            | .error _ => (.error .storeError, db)
            | .ok (db2, _, changes) =>
              match UpdateTransactionStatus db2 txn.id .posted now with
              | .error _ => (.error .storeError, db)
              | .ok (txn2, db3) =>
                let db4 := publishTransactionPosted db3 txn2.id
                let db5 := publishBalanceUpdatedAll db4 changes txn2.id
                (.ok txn2, db5)

/-- `DefaultMaxAttempts` (internal/webhooks/types.go). -/
def defaultMaxAttempts : Nat := 3

/-- `SupportedEventTypes` (internal/webhooks/types.go). -/
def supportedEventTypes : List String :=
  ["transaction.posted", "balance.updated", "account.created",
   "account.updated"]

/-- `WebhookConfig` as produced by `parseWebhookConfig`. -/
structure WebhookConfig where
  webhookURL : String
  webhookSecret : String
  webhookEvents : List String
  enabled : Bool
deriving DecidableEq, Repr

/-- The webhook-related keys of a tenant's metadata JSON, as read by
`parseWebhookConfig`; `none` stands for an absent key. -/
structure TenantMeta where
  webhookUrl : Option String
  webhookSecret : Option String
  webhookEvents : Option (List String)
  webhookEnabled : Option Bool
deriving DecidableEq, Repr

/-- `parseWebhookConfig` (internal/webhooks/service.go): fails when the
metadata is absent, or `webhook_url` or `webhook_secret` is missing or
empty; `webhook_events` defaults to all supported types and
`webhook_enabled` defaults to true. -/
def parseWebhookConfig (metadata : Option TenantMeta) :
    Option WebhookConfig :=
  match metadata with
  | none => none
  | some m =>
    match m.webhookUrl with
    | none => none
    | some url =>
      if url = "" then none
      else
        match m.webhookSecret with
        | none => none
        | some secret =>
          if secret = "" then none
          else some ⟨url, secret, m.webhookEvents.getD supportedEventTypes,
                     m.webhookEnabled.getD true⟩

/-- `shouldDeliverEvent`: membership of the event type in the configured
list. -/
def shouldDeliverEvent (config : WebhookConfig) (eventType : String) : Bool :=
  config.webhookEvents.any (fun t => t == eventType)

/-- A `webhook_deliveries` row. -/
structure WebhookDelivery where
  id : Nat
  webhookUrl : String
  maxAttempts : Nat
  attempts : Nat
  httpStatusCode : Option Nat
  responseBody : Option String
  nextRetryAt : Option Nat
  deliveredAt : Option Nat
  failedAt : Option Nat
deriving DecidableEq, Repr

/-- `QueueWebhookDelivery`: no row when the config does not parse, webhooks
are disabled, or the event type is not subscribed; otherwise a fresh row
with `attempts = 0` (schema default), `max_attempts = DefaultMaxAttempts`
and `next_retry_at = now()`. -/
def queueWebhookDelivery (metadata : Option TenantMeta) (eventType : String)
    (id now : Nat) : Option WebhookDelivery :=
  match parseWebhookConfig metadata with
  | none => none
  | some config =>
    if !config.enabled then none
    else if !shouldDeliverEvent config eventType then none
    else some ⟨id, config.webhookURL, defaultMaxAttempts, 0, none, none,
               some now, none, none⟩

/-- `UpdateWebhookDeliverySuccess` (sql/queries/webhooks.sql). -/
def UpdateWebhookDeliverySuccess (d : WebhookDelivery) (status : Nat)
    (body : String) (now : Nat) : WebhookDelivery :=
  { d with httpStatusCode := some status, responseBody := some body,
           attempts := d.attempts + 1, deliveredAt := some now,
           nextRetryAt := none }

/-- `UpdateWebhookDeliveryFailure` (sql/queries/webhooks.sql): increments
`attempts`; when `attempts + 1 >= max_attempts` (pre-update `attempts`, so
the post-increment count) the row becomes terminal; otherwise
`next_retry_at = NOW() + INTERVAL '1 minute' * POWER(2, attempts + 1)`,
i.e. 60 seconds times two to the post-increment attempts count. -/
def UpdateWebhookDeliveryFailure (d : WebhookDelivery) (status : Nat)
    (body : String) (now : Nat) : WebhookDelivery :=
  { d with httpStatusCode := some status, responseBody := some body,
           attempts := d.attempts + 1,
           nextRetryAt :=
             if d.attempts + 1 ≥ d.maxAttempts then none
             else some (now + 60 * 2 ^ (d.attempts + 1)),
           failedAt :=
             if d.attempts + 1 ≥ d.maxAttempts then some now
             else d.failedAt }

/-- The `GetPendingWebhookDeliveries` row predicate:
`next_retry_at IS NOT NULL AND next_retry_at <= NOW() AND
attempts < max_attempts`. -/
def isDue (d : WebhookDelivery) (now : Nat) : Bool :=
  match d.nextRetryAt with
  | some t => t ≤ now && d.attempts < d.maxAttempts
  | none => false

/-- `ResetWebhookDeliveryForRetry` (sql/queries/webhooks.sql). -/
def ResetWebhookDeliveryForRetry (d : WebhookDelivery) (now : Nat) :
    WebhookDelivery :=
  { d with nextRetryAt := some now, failedAt := none }

/-- `deliverWebhook`'s outcome classification: success means a 2xx status;
a transport failure is recorded with status code 0 and therefore always a
failure. -/
def isSuccessStatus (status : Nat) : Bool :=
  200 ≤ status && status < 300

/-- The event fields `processDelivery` reads. -/
structure EventInfo where
  eventId : Nat
  eventType : String
deriving DecidableEq, Repr

/-- The outbound POST built by `deliverWebhook`: it goes to the URL of the
tenant's CURRENT parsed configuration. -/
structure HttpRequest where
  url : String
  eventId : Nat
  eventType : String
deriving DecidableEq, Repr

/-- `processDelivery` (internal/webhooks/service.go, lines 108-162): load
the event and the tenant's current configuration; when the configuration
fails to parse, return with the row untouched and no request sent;
otherwise POST to the configured URL — note the code consults neither
`config.Enabled`, nor the row's stored URL, nor `shouldDeliverEvent` — and
record the outcome (`responseStatus` is the HTTP status of the response, 0
for a transport failure). -/
def processDelivery (metadata : Option TenantMeta) (d : WebhookDelivery)
    (event : EventInfo) (responseStatus : Nat) (responseBody : String)
    (now : Nat) : Option HttpRequest × WebhookDelivery :=
  match parseWebhookConfig metadata with
  | none => (none, d)
  | some config =>
    let req : HttpRequest := ⟨config.webhookURL, event.eventId,
                              event.eventType⟩
    if isSuccessStatus responseStatus then
      (some req, UpdateWebhookDeliverySuccess d responseStatus responseBody now)
    else
      (some req, UpdateWebhookDeliveryFailure d responseStatus responseBody now)

/-- Every mutation a delivery row can undergo after creation: being
processed by the worker (success or failure update, only when due), being
skipped (config parse failure leaves it unchanged), or a manual retry
(`RetryWebhookDelivery` guards: not yet delivered and attempts below the
maximum). -/
inductive DeliveryStep : WebhookDelivery → WebhookDelivery → Prop
  | success (d : WebhookDelivery) (now status : Nat) (body : String)
      (hdue : isDue d now = true) :
      DeliveryStep d (UpdateWebhookDeliverySuccess d status body now)
  | failure (d : WebhookDelivery) (now status : Nat) (body : String)
      (hdue : isDue d now = true) :
      DeliveryStep d (UpdateWebhookDeliveryFailure d status body now)
  | reset (d : WebhookDelivery) (now : Nat)
      (hnotDelivered : d.deliveredAt = none)
      (hattempts : d.attempts < d.maxAttempts) :
      DeliveryStep d (ResetWebhookDeliveryForRetry d now)

/-- Observation helper: the event is the `transaction.posted` event of the
given transaction. -/
def isTransactionPostedFor (txnId : Nat) (e : EventRow) : Bool :=
  match e.body with
  | .transactionPosted i => i == txnId
  | .balanceUpdated _ => false

/-- Observation helper: the event is a `balance.updated` event for the
given (account, currency). -/
def isBalanceUpdatedFor (acctId : Nat) (currency : String) (e : EventRow) :
    Bool :=
  match e.body with
  | .transactionPosted _ => false
  | .balanceUpdated p => p.accountId == acctId && p.currency == currency

/-- Observation helper: the event is a `balance.updated` event for the
given account (any currency). -/
def isBalanceUpdatedForAcct (acctId : Nat) (e : EventRow) : Bool :=
  match e.body with
  | .transactionPosted _ => false
  | .balanceUpdated p => p.accountId == acctId

/-- Observation helper: the event is any `balance.updated` event. -/
def isBalanceUpdatedEvent (e : EventRow) : Bool :=
  match e.body with
  | .transactionPosted _ => false
  | .balanceUpdated _ => true

/-- Observation helper: the payload `version` field of a `balance.updated`
event (0 on other events). -/
def balanceVersionOf (e : EventRow) : Nat :=
  match e.body with
  | .transactionPosted _ => 0
  | .balanceUpdated p => p.version

/-- The account id an entry resolves to through the account map. -/
def entryKey (m : List (String × Account)) (e : TransactionLineEntry) :
    Option Nat :=
  (lookupCode m e.accountCode).map (fun a => a.id)

/-- The last entry of the list resolving to account `a`, starting from a
pending candidate `s` (mirrors scanning the request in order and keeping
the most recent hit). -/
def lastHitFrom (m : List (String × Account)) (s : Option TransactionLineEntry) :
    List TransactionLineEntry → Nat → Option TransactionLineEntry
  | [], _ => s
  | e :: rest, a =>
    lastHitFrom m (if entryKey m e == some a then some e else s) rest a

/-- The last entry of the list resolving to account `a`. -/
def lastHitEntry (m : List (String × Account))
    (es : List TransactionLineEntry) (a : Nat) :
    Option TransactionLineEntry :=
  lastHitFrom m none es a

/-- Whether the `balanceChanges` map holds an entry for the account. -/
def hasChange (m : List (Nat × Change)) (a : Nat) : Bool :=
  m.any (fun p => p.1 == a)

/-- The keys of the `balanceChanges` map are pairwise distinct (a Go map
cannot hold a key twice). -/
def keysNodup (m : List (Nat × Change)) : Prop :=
  (m.map (fun p => p.1)).Nodup

/-- Balance of an (account, currency), with the posting engine's
convention of 0 for a missing row. -/
def balOf (db : DB) (acctId : Nat) (currency : String) : Money :=
  ((GetAccountBalanceForUpdate db acctId currency).map
    (fun b => b.balance)).getD 0

/-- Version of an (account, currency) row, defaulting to 1 for a missing
row (the version `CreateAccountBalance` would insert). -/
def verOf (db : DB) (acctId : Nat) (currency : String) : Nat :=
  ((GetAccountBalanceForUpdate db acctId currency).map
    (fun b => b.version)).getD 1

/-- The invariant "posting time set iff status = posted" over all
transaction rows of a committed database. -/
def postedAtInv (db : DB) : Prop :=
  ∀ t ∈ db.transactions, (t.postedAt ≠ none ↔ t.status = .posted)

/-- Concrete chart of accounts for witnesses and counterexamples: a cash
asset account and a payable liability account. -/
def acctCash : Account := ⟨1, "1000", .asset, true⟩

/-- Concrete liability account. -/
def acctPayable : Account := ⟨2, "2000", .liability, true⟩

/-- Concrete empty tenant database holding the two accounts. -/
def dbBase : DB := ⟨[acctCash, acctPayable], [], [], [], [], 10⟩

/-- Concrete database already holding a committed transaction with
idempotency key "k1". -/
def dbExisting : DB :=
  { dbBase with transactions := [⟨5, "k1", .posted, some 3⟩] }

/-- Concrete tenant metadata with a valid webhook configuration that keeps
the defaults (all event types, enabled). -/
def metaEnabled : Option TenantMeta :=
  some ⟨some "https://a.example", some "s3cret", none, none⟩

/-- Concrete tenant metadata whose webhook configuration parses but is
explicitly disabled. -/
def metaDisabled : Option TenantMeta :=
  some ⟨some "https://a.example", some "s3cret",
        some ["transaction.posted"], some false⟩

/-- Concrete freshly queued delivery row for `metaEnabled`. -/
def deliveryFresh : WebhookDelivery :=
  ⟨1, "https://a.example", 3, 0, none, none, some 100, none, none⟩

/-- Concrete simple posting request: debit 1000 NGN on the cash account. -/
def reqSimpleSeed : CreateTransactionRequest := ⟨"k1", "1000", 1000, .debit, "NGN"⟩

/-- Concrete second simple posting request on the same account. -/
def reqSimpleSecond : CreateTransactionRequest := ⟨"k9", "1000", 100, .debit, "NGN"⟩

/-- Database after posting `reqSimpleSeed` on `dbBase`. -/
def dbAfterFirst : DB := (createSimpleTransaction dbBase reqSimpleSeed 7).2

/-- Database after also posting `reqSimpleSecond`. -/
def dbAfterSecond : DB := (createSimpleTransaction dbAfterFirst reqSimpleSecond 8).2

/-- Concrete unbalanced double-entry request reusing the existing key "k1". -/
def reqUnbalanced : CreateDoubleEntryRequest :=
  ⟨"k1", [⟨"1000", 100, .debit, "NGN"⟩, ⟨"2000", 50, .credit, "NGN"⟩]⟩

/-- Concrete balanced double-entry request. -/
def reqBalanced : CreateDoubleEntryRequest :=
  ⟨"k3", [⟨"1000", 100, .debit, "NGN"⟩, ⟨"2000", 100, .credit, "NGN"⟩]⟩

/-- Concrete balanced double-entry request with mixed currencies. -/
def reqMixed : CreateDoubleEntryRequest :=
  ⟨"k4", [⟨"1000", 100, .debit, "NGN"⟩, ⟨"2000", 100, .credit, "USD"⟩]⟩

/-- Concrete balanced double-entry request containing a zero amount. -/
def reqZeroAmount : CreateDoubleEntryRequest :=
  ⟨"k5", [⟨"1000", 0, .debit, "NGN"⟩, ⟨"2000", 0, .credit, "NGN"⟩]⟩

/-- Concrete double-entry request in which the cash account appears in two
lines (100 then 50), balanced by one credit line. -/
def reqDupAccount : CreateDoubleEntryRequest :=
  ⟨"k2", [⟨"1000", 100, .debit, "NGN"⟩, ⟨"1000", 50, .debit, "NGN"⟩,
          ⟨"2000", 150, .credit, "NGN"⟩]⟩

/-- Observation helper: a `balance.updated` event carries the payload
version 1 (true on every other event). -/
def eventVersionOne (e : EventRow) : Bool :=
  !isBalanceUpdatedEvent e || balanceVersionOf e == 1

theorem calculateNewBalance_eq_signedDelta (b a : Money) (t : AccountType)
    (s : Side) : calculateNewBalance b a s t = b + signedDelta t s * a := by
  cases t <;> cases s <;> simp [calculateNewBalance, signedDelta] <;> ring

theorem foldl_calculateNewBalance_eq_sum
    (ls : List (AccountType × Side × Money)) :
    ∀ start : Money,
      ls.foldl (fun b l => calculateNewBalance b l.2.2 l.2.1 l.1) start =
        start + (ls.map (fun l => signedDelta l.1 l.2.1 * l.2.2)).sum := by
  induction ls with
  | nil => intro start; simp
  | cons hd tl ih =>
    intro start
    simp only [List.foldl_cons, List.map_cons, List.sum_cons]
    rw [ih, calculateNewBalance_eq_signedDelta]
    ring

/-- C1: the posting engine's `calculateNewBalance` realises the spec's
signed-balance table — for asset and expense accounts a debit adds and a
credit subtracts, for liability, equity and revenue a credit adds and a
debit subtracts — and folding it over committed lines starting from 0
yields the sum of `signedDelta(type, side) · amount`; the earlier
revision's naive helper (`+` on debit, `−` on credit regardless of type)
diverges from the rule on a credit of 100 to a liability account with
balance 0 (−100 instead of +100), the divergence of the recorded bug. -/
theorem signed_balance_rule_vs_naive :
    (∀ (b a : Money) (t : AccountType) (s : Side),
      calculateNewBalance b a s t = b + signedDelta t s * a)
    ∧ (∀ ls : List (AccountType × Side × Money),
      ls.foldl (fun b l => calculateNewBalance b l.2.2 l.2.1 l.1) 0 =
        (ls.map (fun l => signedDelta l.1 l.2.1 * l.2.2)).sum)
    ∧ naiveNewBalance 0 100 .credit = -100
    ∧ calculateNewBalance 0 100 .credit .liability = 100
    ∧ naiveNewBalance 0 100 .credit ≠
        calculateNewBalance 0 100 .credit .liability := by
  refine ⟨calculateNewBalance_eq_signedDelta, fun ls => ?_,
    by decide, by decide, by decide⟩
  rw [foldl_calculateNewBalance_eq_sum, zero_add]

theorem isDue_attempts_lt {d : WebhookDelivery} {now : Nat}
    (h : isDue d now = true) : d.attempts < d.maxAttempts := by
  unfold isDue at h
  cases hr : d.nextRetryAt with
  | none => rw [hr] at h; simp at h
  | some t =>
    rw [hr] at h
    simp only [Bool.and_eq_true, decide_eq_true_eq] at h
    exact h.2

theorem queueWebhookDelivery_fields {meta : Option TenantMeta}
    {etype : String} {id now : Nat} {d : WebhookDelivery}
    (h : queueWebhookDelivery meta etype id now = some d) :
    d.attempts = 0 ∧ d.maxAttempts = 3 := by
  unfold queueWebhookDelivery at h
  cases hp : parseWebhookConfig meta with
  | none => rw [hp] at h; simp at h
  | some cfg =>
    rw [hp] at h
    by_cases he : cfg.enabled
    · simp only [he] at h
      by_cases hs : shouldDeliverEvent cfg etype
      · simp only [hs] at h
        cases h
        exact ⟨rfl, rfl⟩
      · simp [hs] at h
    · simp [he] at h

/-- C7: on a failed delivery attempt (any non-2xx status, transport
failures recorded as status 0) `attempts` is incremented by 1; when the
incremented count has reached `max_attempts` the row becomes terminal with
`failed_at = now()` and `next_retry_at = NULL`, otherwise
`next_retry_at = now() + 60s · 2^attempts` with the post-increment
attempts count — for a freshly queued row (attempts 0, max_attempts 3 by
default) retries land at +2 min then +4 min and the third attempt is
terminal; and no reachable mutation pushes `attempts` past
`max_attempts`. -/
theorem webhook_retry_backoff_schedule :
    (∀ (d : WebhookDelivery) (status : Nat) (body : String) (now : Nat),
      (UpdateWebhookDeliveryFailure d status body now).attempts =
        d.attempts + 1 ∧
      (UpdateWebhookDeliverySuccess d status body now).attempts =
        d.attempts + 1)
    ∧ (∀ (d : WebhookDelivery) (status : Nat) (body : String) (now : Nat),
      d.maxAttempts ≤ d.attempts + 1 →
      (UpdateWebhookDeliveryFailure d status body now).failedAt = some now ∧
      (UpdateWebhookDeliveryFailure d status body now).nextRetryAt = none)
    ∧ (∀ (d : WebhookDelivery) (status : Nat) (body : String) (now : Nat),
      d.attempts + 1 < d.maxAttempts →
      (UpdateWebhookDeliveryFailure d status body now).nextRetryAt =
        some (now + 60 * 2 ^ (d.attempts + 1)) ∧
      (UpdateWebhookDeliveryFailure d status body now).failedAt = d.failedAt)
    ∧ (∀ (meta : Option TenantMeta) (etype : String) (id now : Nat)
        (d : WebhookDelivery),
      queueWebhookDelivery meta etype id now = some d →
      d.attempts = 0 ∧ d.maxAttempts = 3)
    ∧ (∀ (meta : Option TenantMeta) (d : WebhookDelivery) (ev : EventInfo)
        (status : Nat) (body : String) (now : Nat) (cfg : WebhookConfig),
      parseWebhookConfig meta = some cfg → isSuccessStatus status = false →
      (processDelivery meta d ev status body now).2 =
        UpdateWebhookDeliveryFailure d status body now)
    ∧ isSuccessStatus 0 = false
    ∧ (∀ (meta : Option TenantMeta) (etype : String) (id n0 : Nat)
        (s1 : Nat) (b1 : String) (n1 s2 : Nat) (b2 : String) (n2 s3 : Nat)
        (b3 : String) (n3 : Nat) (d : WebhookDelivery),
      queueWebhookDelivery meta etype id n0 = some d →
      (UpdateWebhookDeliveryFailure d s1 b1 n1).nextRetryAt =
        some (n1 + 120) ∧
      (UpdateWebhookDeliveryFailure (UpdateWebhookDeliveryFailure d s1 b1 n1)
        s2 b2 n2).nextRetryAt = some (n2 + 240) ∧
      (UpdateWebhookDeliveryFailure (UpdateWebhookDeliveryFailure
        (UpdateWebhookDeliveryFailure d s1 b1 n1) s2 b2 n2) s3 b3
        n3).failedAt = some n3 ∧
      (UpdateWebhookDeliveryFailure (UpdateWebhookDeliveryFailure
        (UpdateWebhookDeliveryFailure d s1 b1 n1) s2 b2 n2) s3 b3
        n3).nextRetryAt = none ∧
      (UpdateWebhookDeliveryFailure (UpdateWebhookDeliveryFailure
        (UpdateWebhookDeliveryFailure d s1 b1 n1) s2 b2 n2) s3 b3
        n3).attempts = 3)
    ∧ (∀ (d d' : WebhookDelivery), d.attempts ≤ d.maxAttempts →
      DeliveryStep d d' → d'.attempts ≤ d'.maxAttempts) := by
  refine ⟨?_, ?_, ?_, ?_, ?_, by decide, ?_, ?_⟩
  · intro d status body now
    exact ⟨rfl, rfl⟩
  · intro d status body now h
    constructor
    · simp [UpdateWebhookDeliveryFailure, if_pos (by omega : d.attempts + 1 ≥ d.maxAttempts)]
    · simp [UpdateWebhookDeliveryFailure, if_pos (by omega : d.attempts + 1 ≥ d.maxAttempts)]
  · intro d status body now h
    constructor
    · simp [UpdateWebhookDeliveryFailure, if_neg (by omega : ¬ d.attempts + 1 ≥ d.maxAttempts)]
    · simp [UpdateWebhookDeliveryFailure, if_neg (by omega : ¬ d.attempts + 1 ≥ d.maxAttempts)]
  · intro meta etype id now d h
    exact queueWebhookDelivery_fields h
  · intro meta d ev status body now cfg hc hs
    unfold processDelivery
    rw [hc, hs]
    simp
  · intro meta etype id n0 s1 b1 n1 s2 b2 n2 s3 b3 n3 d h
    obtain ⟨h0, hm⟩ := queueWebhookDelivery_fields h
    refine ⟨?_, ?_, ?_, ?_, ?_⟩ <;>
      simp [UpdateWebhookDeliveryFailure, h0, hm]
  · intro d d' hle hstep
    cases hstep with
    | success now status body hdue =>
      have := isDue_attempts_lt hdue
      simp [UpdateWebhookDeliverySuccess]
      omega
    | failure now status body hdue =>
      have := isDue_attempts_lt hdue
      simp [UpdateWebhookDeliveryFailure]
      omega
    | reset now hnd ha =>
      simpa [ResetWebhookDeliveryForRetry] using hle

/-- Witness for C7 at concrete inputs: the freshly queued row (attempts 0,
max 3) schedules its first retry at +2 min on failure, and a row one
attempt short of the maximum becomes terminal. -/
theorem webhook_retry_backoff_schedule_witness :
    ((UpdateWebhookDeliveryFailure deliveryFresh 500 "err" 100).nextRetryAt =
        some (100 + 60 * 2 ^ (deliveryFresh.attempts + 1)) ∧
      (UpdateWebhookDeliveryFailure deliveryFresh 500 "err" 100).failedAt =
        deliveryFresh.failedAt)
    ∧ ((UpdateWebhookDeliveryFailure
        ⟨1, "https://a.example", 3, 2, none, none, some 460, none, none⟩
        500 "err" 460).failedAt = some 460 ∧
      (UpdateWebhookDeliveryFailure
        ⟨1, "https://a.example", 3, 2, none, none, some 460, none, none⟩
        500 "err" 460).nextRetryAt = none)
    ∧ (deliveryFresh.attempts = 0 ∧ deliveryFresh.maxAttempts = 3)
    ∧ (UpdateWebhookDeliveryFailure deliveryFresh 500 "err" 100).nextRetryAt =
        some (100 + 120)
    ∧ (processDelivery metaEnabled deliveryFresh ⟨1, "transaction.posted"⟩
        500 "err" 100).2 =
      UpdateWebhookDeliveryFailure deliveryFresh 500 "err" 100
    ∧ (UpdateWebhookDeliveryFailure deliveryFresh 500 "err" 100).attempts ≤
        (UpdateWebhookDeliveryFailure deliveryFresh 500 "err" 100).maxAttempts := by
  obtain ⟨h1, h2, h3, h4, h5, h6, h7, h8⟩ := webhook_retry_backoff_schedule
  refine ⟨h3 deliveryFresh 500 "err" 100 (by decide), ?_, ?_, ?_, ?_, ?_⟩
  · exact h2 ⟨1, "https://a.example", 3, 2, none, none, some 460, none, none⟩
      500 "err" 460 (by decide)
  · exact h4 metaEnabled "transaction.posted" 1 100 deliveryFresh (by decide)
  · exact (h7 metaEnabled "transaction.posted" 1 100 500 "err" 100 500 "e" 0
      500 "e" 0 deliveryFresh (by decide)).1
  · exact h5 metaEnabled deliveryFresh ⟨1, "transaction.posted"⟩ 500 "err"
      100 ⟨"https://a.example", "s3cret", supportedEventTypes, true⟩
      (by decide) (by decide)
  · exact h8 deliveryFresh (UpdateWebhookDeliveryFailure deliveryFresh 500
      "err" 100) (by decide)
      (DeliveryStep.failure deliveryFresh 100 500 "err" (by decide))

theorem find?_append_single {α : Type} (l : List α) (x : α) (p : α → Bool) :
    (l ++ [x]).find? p =
      match l.find? p with
      | some y => some y
      | none => if p x then some x else none := by
  induction l with
  | nil => cases hp : p x <;> simp [List.find?, hp]
  | cons hd tl ih =>
    cases hp : p hd with
    | true =>
      rw [List.cons_append, @List.find?_cons_of_pos _ p hd _ hp,
        @List.find?_cons_of_pos _ p hd tl hp]
    | false =>
      rw [List.cons_append,
        @List.find?_cons_of_neg _ p hd _ (by simp [hp]),
        @List.find?_cons_of_neg _ p hd tl (by simp [hp]), ih]

theorem find?_balPred_fields {db : DB} {a : Nat} {c : String} {row : BalanceRow}
    (h : GetAccountBalanceForUpdate db a c = some row) :
    row.accountId = a ∧ row.currency = c := by
  have := List.find?_some h
  simp only [Bool.and_eq_true, beq_iff_eq] at this
  exact this

theorem find?_replace_self (l : List BalanceRow) (a : Nat) (c : String)
    (row2 : BalanceRow) (hrow : row2.accountId = a ∧ row2.currency = c) :
    (l.map (fun b => if b.accountId == a && b.currency == c then row2
      else b)).find? (fun b => b.accountId == a && b.currency == c) =
      (l.find? (fun b => b.accountId == a && b.currency == c)).map
        (fun _ => row2) := by
  have hrow2 : (row2.accountId == a && row2.currency == c) = true := by
    simp [hrow.1, hrow.2]
  induction l with
  | nil => simp
  | cons hd tl ih =>
    cases hp : (hd.accountId == a && hd.currency == c) with
    | true =>
      rw [List.map_cons, if_pos hp,
        @List.find?_cons_of_pos _
          (fun b => b.accountId == a && b.currency == c) row2 _ hrow2,
        @List.find?_cons_of_pos _
          (fun b => b.accountId == a && b.currency == c) hd tl hp]
      rfl
    | false =>
      rw [List.map_cons, if_neg (by simp [hp]),
        @List.find?_cons_of_neg _
          (fun b => b.accountId == a && b.currency == c) hd _ (by simp [hp]),
        @List.find?_cons_of_neg _
          (fun b => b.accountId == a && b.currency == c) hd tl (by simp [hp]),
        ih]

theorem find?_replace_other (l : List BalanceRow) (a : Nat) (c : String)
    (a2 : Nat) (c2 : String) (row2 : BalanceRow)
    (hne : ¬(a2 = a ∧ c2 = c)) (hrow : row2.accountId = a ∧ row2.currency = c) :
    (l.map (fun b => if b.accountId == a && b.currency == c then row2
      else b)).find? (fun b => b.accountId == a2 && b.currency == c2) =
      l.find? (fun b => b.accountId == a2 && b.currency == c2) := by
  have hrow2 : ¬(row2.accountId == a2 && row2.currency == c2) = true := by
    intro h
    simp only [Bool.and_eq_true, beq_iff_eq] at h
    exact hne ⟨by rw [← h.1, hrow.1], by rw [← h.2, hrow.2]⟩
  induction l with
  | nil => simp
  | cons hd tl ih =>
    cases hp : (hd.accountId == a && hd.currency == c) with
    | true =>
      have hd2 : ¬(hd.accountId == a2 && hd.currency == c2) = true := by
        intro h
        simp only [Bool.and_eq_true, beq_iff_eq] at h hp
        exact hne ⟨by rw [← h.1, hp.1], by rw [← h.2, hp.2]⟩
      rw [List.map_cons, if_pos hp,
        @List.find?_cons_of_neg _
          (fun b => b.accountId == a2 && b.currency == c2) row2 _ hrow2,
        @List.find?_cons_of_neg _
          (fun b => b.accountId == a2 && b.currency == c2) hd tl hd2, ih]
    | false =>
      cases hq : (hd.accountId == a2 && hd.currency == c2) with
      | true =>
        rw [List.map_cons, if_neg (by simp [hp]),
          @List.find?_cons_of_pos _
            (fun b => b.accountId == a2 && b.currency == c2) hd _ hq,
          @List.find?_cons_of_pos _
            (fun b => b.accountId == a2 && b.currency == c2) hd tl hq]
      | false =>
        rw [List.map_cons, if_neg (by simp [hp]),
          @List.find?_cons_of_neg _
            (fun b => b.accountId == a2 && b.currency == c2) hd _
            (by simp [hq]),
          @List.find?_cons_of_neg _
            (fun b => b.accountId == a2 && b.currency == c2) hd tl
            (by simp [hq]), ih]

theorem CreateAccountBalance_of_missing {db : DB} {a : Nat} {c : String}
    (bal : Money) (h : GetAccountBalanceForUpdate db a c = none) :
    CreateAccountBalance db a c bal =
      .ok (⟨a, c, bal, 1⟩,
        { db with balances := db.balances ++ [⟨a, c, bal, 1⟩] }) := by
  have hany : ¬ db.balances.any
      (fun b => b.accountId == a && b.currency == c) = true := by
    intro hb
    obtain ⟨x, hx, hpx⟩ := List.any_eq_true.mp hb
    exact absurd hpx (List.find?_eq_none.mp h x hx)
  unfold CreateAccountBalance
  rw [if_neg hany]

theorem CreateAccountBalance_ok_version {db : DB} {a : Nat} {c : String}
    {bal : Money} {r : BalanceRow} {db2 : DB}
    (h : CreateAccountBalance db a c bal = .ok (r, db2)) : r.version = 1 := by
  unfold CreateAccountBalance at h
  split at h
  · cases h
  · cases h
    rfl

theorem UpdateAccountBalance_ok_inv {db : DB} {a : Nat} {c : String}
    {nb : Money} {v : Nat} {r : BalanceRow} {db2 : DB}
    (h : UpdateAccountBalance db a c nb v = .ok (r, db2)) :
    ∃ row1, GetAccountBalanceForUpdate db a c = some row1 ∧
      row1.version = v ∧
      r = { row1 with balance := nb, version := row1.version + 1 } ∧
      db2 = { db with balances := db.balances.map (fun b =>
        if b.accountId == a && b.currency == c then r else b) } := by
  unfold UpdateAccountBalance at h
  split at h
  next hg => cases h
  next row1 hg =>
    split at h
    next hv =>
      cases h
      exact ⟨row1, hg, beq_iff_eq.mp hv, rfl, rfl⟩
    next hv => cases h

theorem UpdateAccountBalance_conflict {db : DB} {a : Nat} {c : String}
    (nb : Money) (v : Nat)
    (h : ∀ row1, GetAccountBalanceForUpdate db a c = some row1 →
      row1.version ≠ v) :
    UpdateAccountBalance db a c nb v = .error .noRows := by
  unfold UpdateAccountBalance
  split
  next hg => rfl
  next row1 hg =>
    rw [if_neg (by simp only [beq_iff_eq]; exact h row1 hg)]

theorem updateAccountBalance_ok_char {db : DB} {acc : Account} {amt : Money}
    {side : Side} {curr : String} {db2 : DB}
    (h : updateAccountBalance db acc amt side curr = .ok db2) :
    db2.accounts = db.accounts ∧ db2.transactions = db.transactions ∧
    db2.lines = db.lines ∧ db2.events = db.events ∧
    db2.nextId = db.nextId ∧
    GetAccountBalanceForUpdate db2 acc.id curr =
      some ⟨acc.id, curr,
        calculateNewBalance (balOf db acc.id curr) amt side acc.accountType,
        verOf db acc.id curr + 1⟩ ∧
    (∀ (a2 : Nat) (c2 : String), ¬(a2 = acc.id ∧ c2 = curr) →
      GetAccountBalanceForUpdate db2 a2 c2 =
        GetAccountBalanceForUpdate db a2 c2) := by
  unfold updateAccountBalance at h
  split at h
  next balance hg =>
    dsimp only at h
    cases hu : UpdateAccountBalance db acc.id curr
        (calculateNewBalance balance.balance amt side acc.accountType)
        balance.version with
    | error e => rw [hu] at h; cases h
    | ok p =>
      rw [hu] at h
      simp only [Except.map] at h
      cases h
      obtain ⟨row1, hg1, hv1, hr1, hdb1⟩ := UpdateAccountBalance_ok_inv hu
      rw [hg] at hg1
      cases hg1
      have hfields := find?_balPred_fields hg
      rw [hdb1]
      refine ⟨rfl, rfl, rfl, rfl, rfl, ?_, ?_⟩
      · show (db.balances.map _).find? _ = _
        rw [find?_replace_self db.balances acc.id curr _
          (by rw [hr1]; exact ⟨hfields.1, hfields.2⟩)]
        rw [show db.balances.find?
          (fun b => b.accountId == acc.id && b.currency == curr) =
          some balance from hg]
        rw [hr1]
        simp only [Option.map]
        have hb : balOf db acc.id curr = balance.balance := by
          simp [balOf, hg]
        have hv : verOf db acc.id curr = balance.version := by
          simp [verOf, hg]
        rw [hb, hv, hfields.1, hfields.2]
      · intro a2 c2 hne
        show (db.balances.map _).find? _ = _
        rw [find?_replace_other db.balances acc.id curr a2 c2 _ hne
          (by rw [hr1]; exact ⟨hfields.1, hfields.2⟩)]
        rfl
  next hg =>
    rw [CreateAccountBalance_of_missing 0 hg] at h
    dsimp only at h
    have hg1 : GetAccountBalanceForUpdate
        { db with balances := db.balances ++ [⟨acc.id, curr, 0, 1⟩] }
        acc.id curr = some ⟨acc.id, curr, 0, 1⟩ := by
      show (db.balances ++ [(⟨acc.id, curr, 0, 1⟩ : BalanceRow)]).find? _ = _
      rw [find?_append_single]
      rw [show db.balances.find?
        (fun b => b.accountId == acc.id && b.currency == curr) = none from hg]
      simp
    rw [hg1] at h
    dsimp only at h
    cases hu : UpdateAccountBalance
        { db with balances := db.balances ++ [⟨acc.id, curr, 0, 1⟩] }
        acc.id curr (calculateNewBalance 0 amt side acc.accountType) 1 with
    | error e => rw [hu] at h; cases h
    | ok p =>
      rw [hu] at h
      simp only [Except.map] at h
      cases h
      obtain ⟨row1, hg2, hv2, hr2, hdb2⟩ := UpdateAccountBalance_ok_inv hu
      rw [hg1] at hg2
      cases hg2
      rw [hdb2]
      refine ⟨rfl, rfl, rfl, rfl, rfl, ?_, ?_⟩
      · show ((db.balances ++ [(⟨acc.id, curr, 0, 1⟩ : BalanceRow)]).map
          _).find? _ = _
        rw [find?_replace_self
          (db.balances ++ [(⟨acc.id, curr, 0, 1⟩ : BalanceRow)])
          acc.id curr _ (by rw [hr2]; exact ⟨rfl, rfl⟩)]
        rw [show (db.balances ++
          [(⟨acc.id, curr, 0, 1⟩ : BalanceRow)]).find?
          (fun b => b.accountId == acc.id && b.currency == curr) =
          some ⟨acc.id, curr, 0, 1⟩ from hg1]
        rw [hr2]
        simp only [Option.map]
        have hb : balOf db acc.id curr = 0 := by simp [balOf, hg]
        have hv : verOf db acc.id curr = 1 := by simp [verOf, hg]
        rw [hb, hv]
      · intro a2 c2 hne
        show ((db.balances ++ [(⟨acc.id, curr, 0, 1⟩ : BalanceRow)]).map
          _).find? _ = _
        rw [find?_replace_other
          (db.balances ++ [(⟨acc.id, curr, 0, 1⟩ : BalanceRow)])
          acc.id curr a2 c2 _ hne (by rw [hr2]; exact ⟨rfl, rfl⟩)]
        show (db.balances ++ [(⟨acc.id, curr, 0, 1⟩ : BalanceRow)]).find? _ = _
        rw [find?_append_single]
        cases hfind : db.balances.find?
            (fun b => b.accountId == a2 && b.currency == c2) with
        | some y => simp [GetAccountBalanceForUpdate, hfind]
        | none =>
          simp only
          rw [if_neg (by
            simp only [Bool.and_eq_true, beq_iff_eq]
            intro hcontra
            exact hne ⟨hcontra.1.symm, hcontra.2.symm⟩)]
          simp [GetAccountBalanceForUpdate, hfind]

theorem find?_mapReplaceKey_self (m : List (Nat × Change)) (k : Nat)
    (v : Change) :
    (m.map (fun p => if p.1 == k then (k, v) else p)).find?
      (fun p => p.1 == k) =
      (m.find? (fun p => p.1 == k)).map (fun _ => (k, v)) := by
  induction m with
  | nil => simp
  | cons hd tl ih =>
    cases hp : (hd.1 == k) with
    | true =>
      rw [List.map_cons, if_pos hp,
        @List.find?_cons_of_pos _ (fun p => p.1 == k) (k, v) _ (by simp),
        @List.find?_cons_of_pos _ (fun p => p.1 == k) hd tl hp]
      rfl
    | false =>
      rw [List.map_cons, if_neg (by simp [hp]),
        @List.find?_cons_of_neg _ (fun p => p.1 == k) hd _ (by simp [hp]),
        @List.find?_cons_of_neg _ (fun p => p.1 == k) hd tl (by simp [hp]),
        ih]

theorem find?_mapReplaceKey_other (m : List (Nat × Change)) (k : Nat)
    (v : Change) (a : Nat) (h : ¬ a = k) :
    (m.map (fun p => if p.1 == k then (k, v) else p)).find?
      (fun p => p.1 == a) = m.find? (fun p => p.1 == a) := by
  induction m with
  | nil => simp
  | cons hd tl ih =>
    cases hp : (hd.1 == k) with
    | true =>
      have hda : ¬ (hd.1 == a) = true := by
        simp only [beq_iff_eq] at hp ⊢
        rw [hp]
        exact fun hc => h hc.symm
      rw [List.map_cons, if_pos hp,
        @List.find?_cons_of_neg _ (fun p => p.1 == a) (k, v) _
          (by simp; exact fun hc => h hc.symm),
        @List.find?_cons_of_neg _ (fun p => p.1 == a) hd tl hda, ih]
    | false =>
      cases hq : (hd.1 == a) with
      | true =>
        rw [List.map_cons, if_neg (by simp [hp]),
          @List.find?_cons_of_pos _ (fun p => p.1 == a) hd _ hq,
          @List.find?_cons_of_pos _ (fun p => p.1 == a) hd tl hq]
      | false =>
        rw [List.map_cons, if_neg (by simp [hp]),
          @List.find?_cons_of_neg _ (fun p => p.1 == a) hd _ (by simp [hq]),
          @List.find?_cons_of_neg _ (fun p => p.1 == a) hd tl (by simp [hq]),
          ih]

theorem any_mapReplaceKey (m : List (Nat × Change)) (k : Nat) (v : Change)
    (a : Nat) :
    (m.map (fun p => if p.1 == k then (k, v) else p)).any
      (fun p => p.1 == a) = m.any (fun p => p.1 == a) := by
  induction m with
  | nil => simp
  | cons hd tl ih =>
    rw [List.map_cons]
    simp only [List.any_cons]
    rw [ih]
    congr 1
    cases hp : (hd.1 == k) with
    | true =>
      rw [if_pos (rfl : (true = true))]
      rw [beq_iff_eq.mp hp]
    | false => simp

theorem lookupChange_upsert_self (m : List (Nat × Change)) (k : Nat)
    (v : Change) : lookupChange (upsertChange m k v) k = some v := by
  unfold upsertChange lookupChange
  by_cases hk : m.any (fun p => p.1 == k) = true
  · rw [if_pos hk, find?_mapReplaceKey_self]
    obtain ⟨p, hp, hpp⟩ := List.any_eq_true.mp hk
    cases hfind : m.find? (fun p => p.1 == k) with
    | some q => rfl
    | none => exact absurd hpp (List.find?_eq_none.mp hfind p hp)
  · rw [if_neg hk, find?_append_single]
    have hnone : m.find? (fun p => p.1 == k) = none := by
      rw [List.find?_eq_none]
      intro x hx hpx
      exact hk (List.any_eq_true.mpr ⟨x, hx, hpx⟩)
    rw [hnone]
    simp

theorem lookupChange_upsert_other (m : List (Nat × Change)) (k : Nat)
    (v : Change) (a : Nat) (h : ¬ a = k) :
    lookupChange (upsertChange m k v) a = lookupChange m a := by
  unfold upsertChange lookupChange
  by_cases hk : m.any (fun p => p.1 == k) = true
  · rw [if_pos hk, find?_mapReplaceKey_other m k v a h]
  · rw [if_neg hk, find?_append_single]
    cases hfind : m.find? (fun p => p.1 == a) with
    | some y => rfl
    | none =>
      simp only
      rw [if_neg (by simp; exact fun hc => h hc.symm)]

theorem hasChange_upsert (m : List (Nat × Change)) (k : Nat) (v : Change)
    (a : Nat) : hasChange (upsertChange m k v) a =
      (hasChange m a || k == a) := by
  unfold upsertChange hasChange
  by_cases hk : m.any (fun p => p.1 == k) = true
  · rw [if_pos hk, any_mapReplaceKey]
    cases hka : (k == a) with
    | false => simp
    | true =>
      have : m.any (fun p => p.1 == a) = true := by
        rw [← beq_iff_eq.mp hka]
        exact hk
      rw [this]
      rfl
  · rw [if_neg hk, List.any_append]
    simp only [List.any_cons, List.any_nil, Bool.or_false]

theorem keysNodup_upsert (m : List (Nat × Change)) (k : Nat) (v : Change)
    (h : keysNodup m) : keysNodup (upsertChange m k v) := by
  unfold upsertChange
  by_cases hk : m.any (fun p => p.1 == k) = true
  · rw [if_pos hk]
    unfold keysNodup at h ⊢
    have : (m.map (fun p => if p.1 == k then (k, v) else p)).map
        (fun p => p.1) = m.map (fun p => p.1) := by
      rw [List.map_map]
      apply List.map_congr_left
      intro p _
      simp only [Function.comp]
      cases hp : (p.1 == k) with
      | true => simp only [if_pos hp]; exact (beq_iff_eq.mp hp).symm
      | false => rw [if_neg (by simp [hp])]
    rw [this]
    exact h
  · rw [if_neg hk]
    unfold keysNodup at h ⊢
    rw [List.map_append]
    simp only [List.map_cons, List.map_nil]
    rw [List.nodup_append]
    refine ⟨h, List.nodup_singleton k, ?_⟩
    intro x hx hmem
    simp only [List.mem_singleton] at hmem
    obtain ⟨p, hp, hpx⟩ := List.mem_map.mp hx
    apply hk
    apply List.any_eq_true.mpr
    exact ⟨p, hp, by rw [beq_iff_eq, hpx, hmem]⟩

theorem mem_upsert_currency (m : List (Nat × Change)) (k : Nat) (v : Change)
    (P : String → Prop) (hm : ∀ p ∈ m, P p.2.currency) (hv : P v.currency) :
    ∀ p ∈ upsertChange m k v, P p.2.currency := by
  intro p hp
  unfold upsertChange at hp
  by_cases hk : m.any (fun q => q.1 == k) = true
  · rw [if_pos hk] at hp
    obtain ⟨q, hq, hqp⟩ := List.mem_map.mp hp
    by_cases hqk : (q.1 == k) = true
    · rw [if_pos hqk] at hqp
      rw [← hqp]
      exact hv
    · rw [if_neg hqk] at hqp
      rw [← hqp]
      exact hm q hq
  · rw [if_neg hk] at hp
    rcases List.mem_append.mp hp with hp1 | hp2
    · exact hm p hp1
    · simp only [List.mem_singleton] at hp2
      rw [hp2]
      exact hv

theorem hasChange_iff_lookup (m : List (Nat × Change)) (a : Nat) :
    hasChange m a = true ↔ ∃ ch, lookupChange m a = some ch := by
  unfold hasChange lookupChange
  constructor
  · intro h
    obtain ⟨p, hp, hpp⟩ := List.any_eq_true.mp h
    cases hfind : m.find? (fun q => q.1 == a) with
    | some q => exact ⟨q.2, rfl⟩
    | none => exact absurd hpp (List.find?_eq_none.mp hfind p hp)
  · rintro ⟨ch, hch⟩
    cases hfind : m.find? (fun q => q.1 == a) with
    | none => rw [hfind] at hch; cases hch
    | some q =>
      have hq := List.find?_some hfind
      have hmem := List.mem_of_find?_eq_some hfind
      exact List.any_eq_true.mpr ⟨q, hmem, hq⟩

theorem lookupChange_key {m : List (Nat × Change)} {a : Nat} {ch : Change}
    (h : lookupChange m a = some ch) :
    ∃ p ∈ m, p.1 = a ∧ p.2 = ch := by
  unfold lookupChange at h
  cases hfind : m.find? (fun q => q.1 == a) with
  | none => rw [hfind] at h; cases h
  | some q =>
    rw [hfind] at h
    have hq := List.find?_some hfind
    have hmem := List.mem_of_find?_eq_some hfind
    refine ⟨q, hmem, beq_iff_eq.mp hq, ?_⟩
    cases h
    rfl

theorem lastHitFrom_shift (m : List (String × Account))
    (es : List TransactionLineEntry) (a : Nat) :
    ∀ s, lastHitFrom m s es a =
      match lastHitFrom m none es a with
      | some x => some x
      | none => s := by
  induction es with
  | nil => intro s; rfl
  | cons e rest ih =>
    intro s
    simp only [lastHitFrom]
    cases hhit : (entryKey m e == some a) with
    | true =>
      simp only [hhit, if_true]
      rw [ih (some e)]
      cases hx : lastHitFrom m none rest a with
      | some x => rfl
      | none => rfl
    | false =>
      simp only [hhit, Bool.false_eq_true, if_false]
      rw [ih s]

theorem some_beq_some (x y : Nat) :
    ((some x == some y) : Bool) = (x == y) := rfl

theorem CreateTransactionLine_ok_inv {db : DB} {txnId acctId : Nat}
    {amount : Money} {side : Side} {currency : String} {l : LineRow}
    {db1 : DB}
    (h : CreateTransactionLine db txnId acctId amount side currency =
      .ok (l, db1)) :
    l = ⟨db.nextId, txnId, acctId, amount, side, currency⟩ ∧
    db1 = { db with lines := db.lines ++ [l], nextId := db.nextId + 1 } ∧
    0 < amount := by
  unfold CreateTransactionLine at h
  split at h
  · cases h
  next hpos =>
    cases h
    exact ⟨rfl, rfl, not_le.mp hpos⟩

theorem CreateTransaction_of_missing {db : DB} {key : String} (now : Nat)
    (h : GetTransactionByIdempotencyKey db key = none) :
    CreateTransaction db key now =
      .ok (⟨db.nextId, key, .pending, some now⟩,
        { db with
          transactions :=
            db.transactions ++ [⟨db.nextId, key, .pending, some now⟩],
          nextId := db.nextId + 1 }) := by
  have hany : ¬ db.transactions.any
      (fun t => t.idempotencyKey == key) = true := by
    intro hb
    obtain ⟨x, hx, hpx⟩ := List.any_eq_true.mp hb
    exact absurd hpx (List.find?_eq_none.mp h x hx)
  unfold CreateTransaction
  rw [if_neg hany]

theorem CreateTransaction_ok_inv {db : DB} {key : String} {now : Nat}
    {t : Txn} {db1 : DB}
    (h : CreateTransaction db key now = .ok (t, db1)) :
    t = ⟨db.nextId, key, .pending, some now⟩ ∧
    db1 = { db with transactions := db.transactions ++ [t],
                    nextId := db.nextId + 1 } := by
  unfold CreateTransaction at h
  split at h
  · cases h
  · cases h
    exact ⟨rfl, rfl⟩

theorem UpdateTransactionStatus_ok_inv {db : DB} {id : Nat}
    {status : TxStatus} {now : Nat} {t2 : Txn} {db2 : DB}
    (h : UpdateTransactionStatus db id status now = .ok (t2, db2)) :
    ∃ t1, db.transactions.find? (fun t => t.id == id) = some t1 ∧
      t2 = { t1 with status := status,
                     postedAt := if status = .posted then some now
                                 else t1.postedAt } ∧
      db2 = { db with transactions := db.transactions.map (fun u =>
        if u.id == id then t2 else u) } ∧
      t1.id = id := by
  unfold UpdateTransactionStatus at h
  split at h
  next hfind => cases h
  next t1 hfind =>
    cases h
    have hp := List.find?_some hfind
    simp only [beq_iff_eq] at hp
    exact ⟨t1, hfind, rfl, rfl, hp⟩

theorem UpdateTransactionStatus_mem {db : DB} {id : Nat} {status : TxStatus}
    {now : Nat} {t2 : Txn} {db2 : DB}
    (h : UpdateTransactionStatus db id status now = .ok (t2, db2)) :
    ∀ u ∈ db2.transactions, u = t2 ∨ (u ∈ db.transactions ∧ ¬ u.id = id) := by
  obtain ⟨t1, hfind, ht2, hdb2, hid⟩ := UpdateTransactionStatus_ok_inv h
  intro u hu
  rw [hdb2] at hu
  obtain ⟨w, hw, hwu⟩ := List.mem_map.mp hu
  by_cases hwid : (w.id == id) = true
  · rw [if_pos hwid] at hwu
    left
    exact hwu.symm
  · rw [if_neg hwid] at hwu
    right
    rw [← hwu]
    exact ⟨hw, fun hc => hwid (by rw [beq_iff_eq]; exact hc)⟩

theorem publishBalanceUpdatedAll_char (changes : List (Nat × Change))
    (txnId : Nat) : ∀ db : DB,
    (publishBalanceUpdatedAll db changes txnId).events =
      db.events ++ changes.map (fun p =>
        (⟨p.1, .balanceUpdated ⟨p.1, p.2.currency, p.2.oldBalance,
          p.2.newBalance, p.2.newBalance - p.2.oldBalance, txnId, 1⟩⟩ :
          EventRow)) ∧
    (publishBalanceUpdatedAll db changes txnId).transactions =
      db.transactions ∧
    (publishBalanceUpdatedAll db changes txnId).lines = db.lines ∧
    (publishBalanceUpdatedAll db changes txnId).balances = db.balances := by
  induction changes with
  | nil => intro db; simp [publishBalanceUpdatedAll]
  | cons hd tl ih =>
    intro db
    unfold publishBalanceUpdatedAll at ih ⊢
    simp only [List.foldl_cons]
    obtain ⟨h1, h2, h3, h4⟩ := ih (publishBalanceUpdated db hd.1
      hd.2.oldBalance hd.2.newBalance txnId hd.2.currency 1)
    refine ⟨?_, by rw [h2]; rfl, by rw [h3]; rfl, by rw [h4]; rfl⟩
    rw [h1]
    show (db.events ++ [_]) ++ _ = _
    rw [List.append_assoc]
    rfl

theorem processEntries_ok_char (txnId : Nat) (m : List (String × Account)) :
    ∀ (es : List TransactionLineEntry) (db : DB) (lines : List LineRow)
      (changes : List (Nat × Change))
      (out : DB × List LineRow × List (Nat × Change)),
      processEntries txnId m db es lines changes = .ok out →
      out.1.events = db.events ∧ out.1.transactions = db.transactions ∧
      out.1.accounts = db.accounts ∧
      (∃ delta, out.2.1 = lines ++ delta ∧ out.1.lines = db.lines ++ delta ∧
        ∀ (a : Nat) (c : String),
          delta.any (fun l => l.accountId == a && l.currency == c) =
            es.any (fun e2 => entryKey m e2 == some a && e2.currency == c)) ∧
      (∀ a, hasChange out.2.2 a =
        (hasChange changes a || es.any (fun e2 => entryKey m e2 == some a))) ∧
      (keysNodup changes → keysNodup out.2.2) ∧
      (∀ P : String → Prop, (∀ p ∈ changes, P p.2.currency) →
        (∀ e2 ∈ es, P e2.currency) → ∀ p ∈ out.2.2, P p.2.currency) ∧
      (∀ a ch, lookupChange out.2.2 a = some ch →
        (lastHitEntry m es a = none ∧ lookupChange changes a = some ch) ∨
        (∃ e2 acc, lastHitEntry m es a = some e2 ∧
          lookupCode m e2.accountCode = some acc ∧ acc.id = a ∧
          ch.newBalance = calculateNewBalance ch.oldBalance e2.amount
            e2.side acc.accountType ∧
          ch.currency = e2.currency)) := by
  intro es
  induction es with
  | nil =>
    intro db lines changes out h
    unfold processEntries at h
    cases h
    refine ⟨rfl, rfl, rfl, ⟨[], by simp, by simp, by simp⟩, by simp,
      fun hn => hn, fun P hm _ => hm, fun a ch hch => Or.inl ⟨rfl, hch⟩⟩
  | cons e rest ih =>
    intro db lines changes out h
    unfold processEntries at h
    split at h
    next hlook => cases h
    next account hlook =>
      dsimp only at h
      split at h
      next err hline => cases h
      next line db1 hline =>
        split at h
        next err hupd => cases h
        next db2u hupd =>
          obtain ⟨hl_line, hl_db1, hl_pos⟩ := CreateTransactionLine_ok_inv hline
          obtain ⟨hu_acc, hu_tx, hu_lines, hu_ev, hu_nid, _, _⟩ :=
            updateAccountBalance_ok_char hupd
          obtain ⟨hev, htx, hacc, ⟨delta, hdelta, hdblines, hdeltaany⟩,
            hhas, hnodup, hcur, hlast⟩ := ih db2u (lines ++ [line]) _ out h
          have hkeye : entryKey m e = some account.id := by
            unfold entryKey
            rw [hlook]
            rfl
          have hdb1ev : db1.events = db.events := by rw [hl_db1]
          have hdb1tx : db1.transactions = db.transactions := by rw [hl_db1]
          have hdb1acc : db1.accounts = db.accounts := by rw [hl_db1]
          refine ⟨by rw [hev, hu_ev, hdb1ev],
            by rw [htx, hu_tx, hdb1tx],
            by rw [hacc, hu_acc, hdb1acc],
            ⟨line :: delta, by rw [hdelta, List.append_assoc]; rfl, ?_, ?_⟩,
            ?_, ?_, ?_, ?_⟩
          · rw [hdblines, hu_lines, hl_db1]
            show (db.lines ++ [line]) ++ delta = _
            rw [List.append_assoc]
            rfl
          · intro a c
            simp only [List.any_cons]
            rw [hdeltaany a c, hkeye, some_beq_some]
            rw [hl_line]
          · intro a
            rw [hhas a, hasChange_upsert]
            simp only [List.any_cons, hkeye, some_beq_some]
            rw [Bool.or_assoc]
          · intro hn
            exact hnodup (keysNodup_upsert _ _ _ hn)
          · intro P hm hes p hp
            refine hcur P ?_ (fun e2 he2 => hes e2 (List.mem_cons_of_mem e he2))
              p hp
            exact mem_upsert_currency _ _ _ P hm (hes e (List.mem_cons_self e rest))
          · intro a ch hch
            rcases hlast a ch hch with ⟨hrestnone, hlk⟩ | hright
            · have hshift : lastHitEntry m (e :: rest) a =
                  (if entryKey m e == some a then some e else none) := by
                unfold lastHitEntry
                show lastHitFrom m (if entryKey m e == some a then some e
                  else none) rest a = _
                rw [lastHitFrom_shift]
                rw [show lastHitFrom m none rest a = none from hrestnone]
              cases hhit : (entryKey m e == some a) with
              | true =>
                have haid : account.id = a := by
                  rw [hkeye, some_beq_some, beq_iff_eq] at hhit
                  exact hhit
                rw [haid] at hlk
                rw [lookupChange_upsert_self] at hlk
                injection hlk with hlk2
                right
                refine ⟨e, account, ?_, hlook, haid, ?_, ?_⟩
                · rw [hshift, if_pos hhit]
                · rw [← hlk2]
                · rw [← hlk2]
              | false =>
                have haid : ¬ a = account.id := by
                  rw [hkeye, some_beq_some] at hhit
                  intro hc
                  rw [hc] at hhit
                  simp at hhit
                rw [lookupChange_upsert_other _ _ _ _ haid] at hlk
                left
                refine ⟨?_, hlk⟩
                rw [hshift, if_neg (by simp [hhit])]
            · obtain ⟨e2, acc, hlhe, hlc, haid, hnb, hcurr⟩ := hright
              right
              refine ⟨e2, acc, ?_, hlc, haid, hnb, hcurr⟩
              unfold lastHitEntry
              show lastHitFrom m (if entryKey m e == some a then some e
                else none) rest a = _
              rw [lastHitFrom_shift]
              rw [show lastHitFrom m none rest a = some e2 from hlhe]

theorem createSimpleTransaction_error_unchanged {db : DB}
    {req : CreateTransactionRequest} {now : Nat} {e : TxError} {db' : DB}
    (h : createSimpleTransaction db req now = (.error e, db')) : db' = db := by
  unfold createSimpleTransaction at h
  repeat' split at h
  all_goals
    first
    | exact (congrArg Prod.snd h).symm
    | exact absurd (congrArg Prod.fst h) (by simp)

theorem createDoubleEntryTransaction_error_unchanged {db : DB}
    {req : CreateDoubleEntryRequest} {now : Nat} {e : TxError} {db' : DB}
    (h : createDoubleEntryTransaction db req now = (.error e, db')) :
    db' = db := by
  unfold createDoubleEntryTransaction at h
  repeat' split at h
  all_goals
    first
    | exact (congrArg Prod.snd h).symm
    | exact absurd (congrArg Prod.fst h) (by simp)

theorem createSimpleTransaction_ok_inversion {db : DB}
    {req : CreateTransactionRequest} {now : Nat} {t : Txn} {db' : DB}
    (hprobe : GetTransactionByIdempotencyKey db req.idempotencyKey = none)
    (h : createSimpleTransaction db req now = (.ok t, db')) :
    ∃ account txn db1 line db2 db3 db4,
      GetAccountByCode db req.accountCode = some account ∧
      CreateTransaction db req.idempotencyKey now = .ok (txn, db1) ∧
      CreateTransactionLine db1 txn.id account.id req.amount req.side
        req.currency = .ok (line, db2) ∧
      updateAccountBalance db2 account req.amount req.side req.currency =
        .ok db3 ∧
      UpdateTransactionStatus db3 txn.id .posted now = .ok (t, db4) ∧
      db' = publishBalanceUpdated (publishTransactionPosted db4 t.id)
        account.id (balOf db2 account.id req.currency)
        (calculateNewBalance (balOf db2 account.id req.currency) req.amount
          req.side account.accountType) t.id req.currency 1 := by
  unfold createSimpleTransaction at h
  split at h
  next existing heq => rw [hprobe] at heq; cases heq
  next heq =>
    split at h
    next hacct => exact absurd (congrArg Prod.fst h) (by simp)
    next account hacct =>
      split at h
      next hct => exact absurd (congrArg Prod.fst h) (by simp)
      next txn db1 hct =>
        split at h
        next hcl => exact absurd (congrArg Prod.fst h) (by simp)
        next line db2 hcl =>
          dsimp only at h
          split at h
          next hub => exact absurd (congrArg Prod.fst h) (by simp)
          next db3 hub =>
            split at h
            next huts => exact absurd (congrArg Prod.fst h) (by simp)
            next txn2 db4 huts =>
              have h1 := congrArg Prod.fst h
              have h2 := congrArg Prod.snd h
              simp only at h1 h2
              have ht : txn2 = t := by
                cases h1
                rfl
              subst ht
              refine ⟨account, txn, db1, line, db2, db3, db4, hacct, hct,
                hcl, hub, huts, ?_⟩
              rw [← h2]
              have hbal : (match GetAccountBalanceForUpdate db2 account.id
                  req.currency with
                | some b => b.balance
                | none => 0) = balOf db2 account.id req.currency := by
                unfold balOf
                cases hg : GetAccountBalanceForUpdate db2 account.id
                  req.currency <;> simp [hg]
              rw [hbal]

theorem createDoubleEntryTransaction_ok_inversion {db : DB}
    {req : CreateDoubleEntryRequest} {now : Nat} {t : Txn} {db' : DB}
    (hprobe : GetTransactionByIdempotencyKey db req.idempotencyKey = none)
    (h : createDoubleEntryTransaction db req now = (.ok t, db')) :
    validateDoubleEntryBalance req.entries = none ∧
    validateCurrencyConsistency req.entries = none ∧
    ∃ acctMap txn db1 db2 lx changes db3,
      resolveAccounts db req.entries [] = .ok acctMap ∧
      CreateTransaction db req.idempotencyKey now = .ok (txn, db1) ∧
      processEntries txn.id acctMap db1 req.entries [] [] =
        .ok (db2, lx, changes) ∧
      UpdateTransactionStatus db2 txn.id .posted now = .ok (t, db3) ∧
      db' = publishBalanceUpdatedAll (publishTransactionPosted db3 t.id)
        changes t.id := by
  unfold createDoubleEntryTransaction at h
  split at h
  next hv => exact absurd (congrArg Prod.fst h) (by simp)
  next hv =>
    split at h
    next hc => exact absurd (congrArg Prod.fst h) (by simp)
    next hc =>
      refine ⟨hv, hc, ?_⟩
      split at h
      next existing heq => rw [hprobe] at heq; cases heq
      next heq =>
        split at h
        next hres => exact absurd (congrArg Prod.fst h) (by simp)
        next acctMap hres =>
          split at h
          next hct => exact absurd (congrArg Prod.fst h) (by simp)
          next txn db1 hct =>
            split at h
            next hpe => exact absurd (congrArg Prod.fst h) (by simp)
            next db2 lx changes hpe =>
              split at h
              next huts => exact absurd (congrArg Prod.fst h) (by simp)
              next txn2 db3 huts =>
                have h1 := congrArg Prod.fst h
                have h2 := congrArg Prod.snd h
                simp only at h1 h2
                have ht : txn2 = t := by
                  cases h1
                  rfl
                subst ht
                exact ⟨acctMap, txn, db1, db2, lx, changes, db3, hres, hct,
                  hpe, huts, h2.symm⟩

theorem lookupChange_none_of_hasChange_false {m : List (Nat × Change)}
    {a : Nat} (h : hasChange m a = false) : lookupChange m a = none := by
  have hf : m.find? (fun q => q.1 == a) = none :=
    List.find?_eq_none.mpr (fun x hx hpx => by
      have : m.any (fun q => q.1 == a) = true :=
        List.any_eq_true.mpr ⟨x, hx, by exact hpx⟩
      unfold hasChange at h
      rw [h] at this
      cases this)
  unfold lookupChange
  rw [hf]
  rfl

theorem lookup_of_mem_nodup : ∀ {m : List (Nat × Change)} {k : Nat}
    {ch : Change}, keysNodup m → (k, ch) ∈ m → lookupChange m k = some ch := by
  intro m
  induction m with
  | nil => intro k ch _ hm; cases hm
  | cons hd tl ih =>
    intro k ch hnd hm
    unfold keysNodup at hnd
    rw [List.map_cons, List.nodup_cons] at hnd
    rcases List.mem_cons.mp hm with heq | htl
    · unfold lookupChange
      rw [@List.find?_cons_of_pos _ (fun q => q.1 == k) hd tl
        (by rw [← heq]; simp)]
      rw [← heq]
      rfl
    · have hkey : ¬ (hd.1 == k) = true := by
        intro hk
        apply hnd.1
        rw [beq_iff_eq.mp hk]
        exact List.mem_map.mpr ⟨(k, ch), htl, rfl⟩
      unfold lookupChange
      rw [@List.find?_cons_of_neg _ (fun q => q.1 == k) hd tl hkey]
      exact ih hnd.2 htl

theorem countP_balanceEvents (txnId : Nat) (a : Nat) (c : String) :
    ∀ changes : List (Nat × Change), keysNodup changes →
    (changes.map (fun p => (⟨p.1, .balanceUpdated ⟨p.1, p.2.currency,
      p.2.oldBalance, p.2.newBalance, p.2.newBalance - p.2.oldBalance,
      txnId, 1⟩⟩ : EventRow))).countP (isBalanceUpdatedFor a c) =
      (match lookupChange changes a with
       | some ch => if ch.currency = c then 1 else 0
       | none => 0) := by
  intro changes
  induction changes with
  | nil => intro _; simp [lookupChange]
  | cons hd tl ih =>
    intro hnd
    have hnd2 : keysNodup tl := by
      unfold keysNodup at hnd ⊢
      rw [List.map_cons, List.nodup_cons] at hnd
      exact hnd.2
    rw [List.map_cons, List.countP_cons, ih hnd2]
    have hpred : isBalanceUpdatedFor a c ⟨hd.1, .balanceUpdated ⟨hd.1,
        hd.2.currency, hd.2.oldBalance, hd.2.newBalance,
        hd.2.newBalance - hd.2.oldBalance, txnId, 1⟩⟩ =
        (hd.1 == a && hd.2.currency == c) := rfl
    rw [hpred]
    cases hk : (hd.1 == a) with
    | true =>
      have hlk : lookupChange (hd :: tl) a = some hd.2 := by
        unfold lookupChange
        rw [@List.find?_cons_of_pos _ (fun q => q.1 == a) hd tl hk]
        rfl
      have hnone : lookupChange tl a = none := by
        apply lookupChange_none_of_hasChange_false
        cases hany : hasChange tl a with
        | false => rfl
        | true =>
          exfalso
          unfold hasChange at hany
          obtain ⟨x, hx, hpx⟩ := List.any_eq_true.mp hany
          unfold keysNodup at hnd
          rw [List.map_cons, List.nodup_cons] at hnd
          apply hnd.1
          rw [beq_iff_eq.mp hk, ← beq_iff_eq.mp hpx]
          exact List.mem_map.mpr ⟨x, hx, rfl⟩
      rw [hlk, hnone]
      simp only [Bool.true_and, Nat.zero_add]
      cases hc2 : (hd.2.currency == c) with
      | true =>
        rw [if_pos (rfl : (true : Bool) = true),
          if_pos (beq_iff_eq.mp hc2)]
      | false =>
        rw [if_neg (by simp), if_neg (by
          intro hcc
          rw [hcc] at hc2
          simp at hc2)]
    | false =>
      have hlk : lookupChange (hd :: tl) a = lookupChange tl a := by
        unfold lookupChange
        rw [@List.find?_cons_of_neg _ (fun q => q.1 == a) hd tl
          (by simp [hk])]
      rw [hlk]
      simp

theorem countP_balanceEvents_acct (txnId : Nat) (a : Nat) :
    ∀ changes : List (Nat × Change), keysNodup changes →
    (changes.map (fun p => (⟨p.1, .balanceUpdated ⟨p.1, p.2.currency,
      p.2.oldBalance, p.2.newBalance, p.2.newBalance - p.2.oldBalance,
      txnId, 1⟩⟩ : EventRow))).countP (isBalanceUpdatedForAcct a) =
      (match lookupChange changes a with
       | some _ => 1
       | none => 0) := by
  intro changes
  induction changes with
  | nil => intro _; simp [lookupChange]
  | cons hd tl ih =>
    intro hnd
    have hnd2 : keysNodup tl := by
      unfold keysNodup at hnd ⊢
      rw [List.map_cons, List.nodup_cons] at hnd
      exact hnd.2
    rw [List.map_cons, List.countP_cons, ih hnd2]
    have hpred : isBalanceUpdatedForAcct a ⟨hd.1, .balanceUpdated ⟨hd.1,
        hd.2.currency, hd.2.oldBalance, hd.2.newBalance,
        hd.2.newBalance - hd.2.oldBalance, txnId, 1⟩⟩ = (hd.1 == a) := rfl
    rw [hpred]
    cases hk : (hd.1 == a) with
    | true =>
      have hlk : lookupChange (hd :: tl) a = some hd.2 := by
        unfold lookupChange
        rw [@List.find?_cons_of_pos _ (fun q => q.1 == a) hd tl hk]
        rfl
      have hnone : lookupChange tl a = none := by
        apply lookupChange_none_of_hasChange_false
        cases hany : hasChange tl a with
        | false => rfl
        | true =>
          exfalso
          unfold hasChange at hany
          obtain ⟨x, hx, hpx⟩ := List.any_eq_true.mp hany
          unfold keysNodup at hnd
          rw [List.map_cons, List.nodup_cons] at hnd
          apply hnd.1
          rw [beq_iff_eq.mp hk, ← beq_iff_eq.mp hpx]
          exact List.mem_map.mpr ⟨x, hx, rfl⟩
      rw [hlk, hnone]
      simp
    | false =>
      have hlk : lookupChange (hd :: tl) a = lookupChange tl a := by
        unfold lookupChange
        rw [@List.find?_cons_of_neg _ (fun q => q.1 == a) hd tl
          (by simp [hk])]
      rw [hlk]
      simp

theorem validateCurrencyConsistency_none {es : List TransactionLineEntry}
    (h : validateCurrencyConsistency es = none) :
    ∃ e0 rest, es = e0 :: rest ∧ ∀ e2 ∈ es, e2.currency = e0.currency := by
  unfold validateCurrencyConsistency at h
  cases es with
  | nil => cases h
  | cons e0 rest =>
    dsimp only at h
    split at h
    · cases h
    next hany =>
      refine ⟨e0, rest, rfl, ?_⟩
      intro e2 he2
      rcases List.mem_cons.mp he2 with he | ht
      · rw [he]
      · by_contra hne
        exact hany (List.any_eq_true.mpr ⟨e2, ht, decide_eq_true hne⟩)

theorem probe_hit_simple {db : DB} {req : CreateTransactionRequest}
    {now : Nat} {t : Txn}
    (h : GetTransactionByIdempotencyKey db req.idempotencyKey = some t) :
    createSimpleTransaction db req now = (.ok t, db) := by
  unfold createSimpleTransaction
  rw [h]

theorem probe_hit_double {db : DB} {req : CreateDoubleEntryRequest}
    {now : Nat} {t : Txn}
    (hv : validateDoubleEntryBalance req.entries = none)
    (hc : validateCurrencyConsistency req.entries = none)
    (h : GetTransactionByIdempotencyKey db req.idempotencyKey = some t) :
    createDoubleEntryTransaction db req now = (.ok t, db) := by
  unfold createDoubleEntryTransaction
  rw [hv, hc, h]

theorem validate_fail_double {db : DB} {req : CreateDoubleEntryRequest}
    {now : Nat} {e : TxError}
    (hv : validateDoubleEntryBalance req.entries = some e) :
    createDoubleEntryTransaction db req now = (.error e, db) := by
  unfold createDoubleEntryTransaction
  rw [hv]

theorem currency_fail_double {db : DB} {req : CreateDoubleEntryRequest}
    {now : Nat} {e : TxError}
    (hv : validateDoubleEntryBalance req.entries = none)
    (hc : validateCurrencyConsistency req.entries = some e) :
    createDoubleEntryTransaction db req now = (.error e, db) := by
  unfold createDoubleEntryTransaction
  rw [hv, hc]

theorem processEntries_not_ok_of_nonpos (txnId : Nat)
    (m : List (String × Account)) :
    ∀ (es : List TransactionLineEntry) (db : DB) (lines : List LineRow)
      (changes : List (Nat × Change))
      (out : DB × List LineRow × List (Nat × Change)),
      (∃ en ∈ es, en.amount ≤ 0) →
      processEntries txnId m db es lines changes ≠ .ok out := by
  intro es
  induction es with
  | nil =>
    rintro db lines changes out ⟨en, hen, _⟩ _
    exact absurd hen (List.not_mem_nil en)
  | cons e rest ih =>
    rintro db lines changes out ⟨en, hen, hneg⟩ h
    unfold processEntries at h
    split at h
    next => cases h
    next account hlook =>
      dsimp only at h
      split at h
      next => cases h
      next line db1 hline =>
        split at h
        next => cases h
        next db2u hupd =>
          rcases List.mem_cons.mp hen with he | htl
          · obtain ⟨_, _, hpos⟩ := CreateTransactionLine_ok_inv hline
            rw [he] at hneg
            exact absurd hpos (not_lt.mpr hneg)
          · exact ih db2u (lines ++ [line]) _ out ⟨en, htl, hneg⟩ h

/-- C8 counterexample: with webhooks explicitly disabled in the tenant's
metadata, the worker still sends the HTTP request and still mutates the
delivery row — the dispatch-time configuration re-check the claim
describes does not exist in `processDelivery`. -/
theorem dispatch_config_mismatch_counterexample :
    (parseWebhookConfig metaDisabled).map (fun cfg => cfg.enabled) =
      some false ∧
    isDue deliveryFresh 100 = true ∧
    (processDelivery metaDisabled deliveryFresh ⟨1, "transaction.posted"⟩
      500 "err" 100).1 =
      some ⟨"https://a.example", 1, "transaction.posted"⟩ ∧
    (processDelivery metaDisabled deliveryFresh ⟨1, "transaction.posted"⟩
      500 "err" 100).2 ≠ deliveryFresh := by decide

/-- C8 (amended): `processDelivery` leaves the delivery row unchanged and
sends no HTTP request exactly when the tenant's current webhook
configuration fails to parse (metadata absent, or `webhook_url` or
`webhook_secret` missing or empty); whenever the configuration parses,
the worker POSTs to the CURRENT configured URL and records the outcome on
the row — even when webhooks are disabled, the configured URL differs
from the row's stored URL, or the event's type has been dropped from the
configured list. -/
theorem dispatch_ignores_current_config :
    (∀ (d : WebhookDelivery) (ev : EventInfo) (status : Nat) (body : String)
      (now : Nat), processDelivery none d ev status body now = (none, d))
    ∧ (∀ (meta : TenantMeta) (d : WebhookDelivery) (ev : EventInfo)
      (status : Nat) (body : String) (now : Nat),
      parseWebhookConfig (some meta) = none →
      processDelivery (some meta) d ev status body now = (none, d))
    ∧ (∀ (meta : Option TenantMeta) (d : WebhookDelivery) (ev : EventInfo)
      (status : Nat) (body : String) (now : Nat) (cfg : WebhookConfig),
      parseWebhookConfig meta = some cfg →
      (cfg.enabled = false ∨ ¬ cfg.webhookURL = d.webhookUrl ∨
        shouldDeliverEvent cfg ev.eventType = false) →
      (processDelivery meta d ev status body now).1 =
        some ⟨cfg.webhookURL, ev.eventId, ev.eventType⟩ ∧
      (processDelivery meta d ev status body now).2.attempts =
        d.attempts + 1) := by
  refine ⟨fun d ev status body now => rfl, ?_, ?_⟩
  · intro meta d ev status body now h
    unfold processDelivery
    rw [h]
  · intro meta d ev status body now cfg hc _
    unfold processDelivery
    rw [hc]
    dsimp only
    by_cases hs : isSuccessStatus status = true
    · rw [if_pos hs]
      exact ⟨rfl, rfl⟩
    · rw [if_neg hs]
      exact ⟨rfl, rfl⟩

/-- Witness for C8's amended theorem at concrete inputs: a disabled
configuration (and one with a URL differing from the row's) still
produces a request to the configured URL and an attempts bump; an
unparseable configuration (empty secret) leaves the row untouched. -/
theorem dispatch_ignores_current_config_witness :
    ((processDelivery metaDisabled deliveryFresh ⟨1, "transaction.posted"⟩
        500 "err" 100).1 =
      some ⟨"https://a.example", 1, "transaction.posted"⟩ ∧
    (processDelivery metaDisabled deliveryFresh ⟨1, "transaction.posted"⟩
        500 "err" 100).2.attempts = deliveryFresh.attempts + 1) ∧
    processDelivery (some ⟨some "https://a.example", some "", none, none⟩)
      deliveryFresh ⟨1, "transaction.posted"⟩ 500 "err" 100 =
      (none, deliveryFresh) := by
  obtain ⟨h1, h2, h3⟩ := dispatch_ignores_current_config
  refine ⟨?_, ?_⟩
  · exact h3 metaDisabled deliveryFresh ⟨1, "transaction.posted"⟩ 500 "err"
      100 ⟨"https://a.example", "s3cret", ["transaction.posted"], false⟩
      (by decide) (Or.inl (by decide))
  · exact h2 ⟨some "https://a.example", some "", none, none⟩ deliveryFresh
      ⟨1, "transaction.posted"⟩ 500 "err" 100 (by decide)

/-- C2 counterexample: the database already holds a committed transaction
with idempotency key "k1", yet `CreateDoubleEntryTransaction` for an
unbalanced request carrying the same key returns
`ErrUnbalancedTransaction` instead of the existing transaction — the
structural validation runs before the idempotency probe, so the probe is
not the first step and validation is not skipped on replay. -/
theorem idempotency_probe_not_first_counterexample :
    GetTransactionByIdempotencyKey dbExisting "k1" =
      some ⟨5, "k1", .posted, some 3⟩ ∧
    reqUnbalanced.idempotencyKey = "k1" ∧
    createDoubleEntryTransaction dbExisting reqUnbalanced 7 =
      (.error .unbalancedTransaction, dbExisting) := by decide

/-- C2 (amended): in `CreateSimpleTransaction` the idempotency probe does
run before everything else — a stored transaction with the request's key
is returned as-is with no state change; in `CreateDoubleEntryTransaction`
the probe runs only AFTER structural validation (balance first, then
currency consistency), so a replay returns the stored transaction, with
no state change, only when the request also passes validation, and a
validation failure wins over the probe even when the key exists. -/
theorem idempotency_probe_order :
    (∀ (db : DB) (req : CreateTransactionRequest) (now : Nat) (t : Txn),
      GetTransactionByIdempotencyKey db req.idempotencyKey = some t →
      createSimpleTransaction db req now = (.ok t, db))
    ∧ (∀ (db : DB) (req : CreateDoubleEntryRequest) (now : Nat) (t : Txn),
      validateDoubleEntryBalance req.entries = none →
      validateCurrencyConsistency req.entries = none →
      GetTransactionByIdempotencyKey db req.idempotencyKey = some t →
      createDoubleEntryTransaction db req now = (.ok t, db))
    ∧ (∀ (db : DB) (req : CreateDoubleEntryRequest) (now : Nat) (e : TxError),
      validateDoubleEntryBalance req.entries = some e →
      createDoubleEntryTransaction db req now = (.error e, db)) := by
  exact ⟨fun db req now t h => probe_hit_simple h,
    fun db req now t hv hc h => probe_hit_double hv hc h,
    fun db req now e hv => validate_fail_double hv⟩

/-- Witness for C2's amended theorem at concrete inputs. -/
theorem idempotency_probe_order_witness :
    createSimpleTransaction dbExisting ⟨"k1", "1000", 10, .debit, "NGN"⟩ 9 =
      (.ok ⟨5, "k1", .posted, some 3⟩, dbExisting) ∧
    createDoubleEntryTransaction dbExisting ⟨"k1", reqBalanced.entries⟩ 9 =
      (.ok ⟨5, "k1", .posted, some 3⟩, dbExisting) ∧
    createDoubleEntryTransaction dbExisting ⟨"k1",
        [⟨"1000", 100, .debit, "NGN"⟩]⟩ 9 =
      (.error .emptyTransactionLines, dbExisting) := by
  obtain ⟨h1, h2, h3⟩ := idempotency_probe_order
  exact ⟨h1 dbExisting ⟨"k1", "1000", 10, .debit, "NGN"⟩ 9 _ (by decide),
    h2 dbExisting ⟨"k1", reqBalanced.entries⟩ 9 _ (by decide) (by decide)
      (by decide),
    h3 dbExisting ⟨"k1", [⟨"1000", 100, .debit, "NGN"⟩]⟩ 9 _ (by decide)⟩

/-- C4 counterexample: `CreateAccountBalance` inserts the row with the
literal version 1, not 0, and after the first posting on a fresh account
the row's version is 2, not 1 — the whole sequence is 1, 2, 3, …, offset
by one from the claimed 0, 1, 2, …. -/
theorem balance_version_starts_at_one_counterexample :
    CreateAccountBalance dbBase 1 "NGN" 0 =
      .ok (⟨1, "NGN", 0, 1⟩,
        { dbBase with balances := [⟨1, "NGN", 0, 1⟩] }) ∧
    ¬ (⟨1, "NGN", 0, 1⟩ : BalanceRow).version = 0 ∧
    GetAccountBalanceForUpdate dbAfterFirst 1 "NGN" =
      some ⟨1, "NGN", 1000, 2⟩ ∧
    ¬ (⟨1, "NGN", 1000, 2⟩ : BalanceRow).version = 1 := by decide

/-- C4 (amended): the balance row is created lazily but with version 1
(the SQL inserts the literal 1, overriding the schema default 0); a
successful `UpdateAccountBalance` requires the stored version to equal
the caller's expected version and bumps it by exactly 1, and fails with
no row update when the row is missing or the version differs; through the
engine's `updateAccountBalance`, a fresh (account, currency) ends at
version 2 after its first posting, and an existing row at version v ends
at v + 1 — so the version sequence is 1, 2, 3, …, strictly increasing
with no gaps, starting at 1 rather than the claimed 0. -/
theorem balance_version_lifecycle :
    (∀ (db : DB) (a : Nat) (c : String) (bal : Money) (r : BalanceRow)
      (db2 : DB), CreateAccountBalance db a c bal = .ok (r, db2) →
      r.version = 1)
    ∧ (∀ (db : DB) (a : Nat) (c : String) (nb : Money) (v : Nat)
      (r : BalanceRow) (db2 : DB),
      UpdateAccountBalance db a c nb v = .ok (r, db2) →
      r.version = v + 1 ∧
      ∀ row1, GetAccountBalanceForUpdate db a c = some row1 →
        row1.version = v)
    ∧ (∀ (db : DB) (a : Nat) (c : String) (nb : Money) (v : Nat),
      GetAccountBalanceForUpdate db a c = none →
      UpdateAccountBalance db a c nb v = .error .noRows)
    ∧ (∀ (db : DB) (a : Nat) (c : String) (nb : Money) (v : Nat)
      (row1 : BalanceRow),
      GetAccountBalanceForUpdate db a c = some row1 →
      ¬ row1.version = v →
      UpdateAccountBalance db a c nb v = .error .noRows)
    ∧ (∀ (db : DB) (acc : Account) (amt : Money) (side : Side)
      (curr : String) (db2 : DB),
      GetAccountBalanceForUpdate db acc.id curr = none →
      updateAccountBalance db acc amt side curr = .ok db2 →
      ∃ r2, GetAccountBalanceForUpdate db2 acc.id curr = some r2 ∧
        r2.version = 2)
    ∧ (∀ (db : DB) (acc : Account) (amt : Money) (side : Side)
      (curr : String) (row : BalanceRow) (db2 : DB),
      GetAccountBalanceForUpdate db acc.id curr = some row →
      updateAccountBalance db acc amt side curr = .ok db2 →
      ∃ r2, GetAccountBalanceForUpdate db2 acc.id curr = some r2 ∧
        r2.version = row.version + 1) := by
  refine ⟨?_, ?_, ?_, ?_, ?_, ?_⟩
  · intro db a c bal r db2 h
    exact CreateAccountBalance_ok_version h
  · intro db a c nb v r db2 h
    obtain ⟨row1, hg, hv, hr, _⟩ := UpdateAccountBalance_ok_inv h
    refine ⟨by rw [hr]; show row1.version + 1 = v + 1; rw [hv], ?_⟩
    intro row2 hrow2
    rw [hg] at hrow2
    cases hrow2
    exact hv
  · intro db a c nb v hnone
    unfold UpdateAccountBalance
    rw [hnone]
  · intro db a c nb v row1 hsome hne
    unfold UpdateAccountBalance
    rw [hsome]
    dsimp only
    rw [if_neg (by simp only [beq_iff_eq]; exact hne)]
  · intro db acc amt side curr db2 hnone h
    obtain ⟨_, _, _, _, _, hget, _⟩ := updateAccountBalance_ok_char h
    refine ⟨_, hget, ?_⟩
    show verOf db acc.id curr + 1 = 2
    have hv : verOf db acc.id curr = 1 := by simp [verOf, hnone]
    rw [hv]
  · intro db acc amt side curr row db2 hsome h
    obtain ⟨_, _, _, _, _, hget, _⟩ := updateAccountBalance_ok_char h
    refine ⟨_, hget, ?_⟩
    show verOf db acc.id curr + 1 = row.version + 1
    have hv : verOf db acc.id curr = row.version := by simp [verOf, hsome]
    rw [hv]

/-- Witness for C4's amended theorem at concrete inputs: creation yields
version 1; a CAS update on the stored version 2 yields version 3; a
missing row and a stale expected version both fail; the engine takes a
fresh account to version 2 and the existing version-2 row to version 3. -/
theorem balance_version_lifecycle_witness :
    (⟨1, "NGN", 0, 1⟩ : BalanceRow).version = 1 ∧
    (⟨1, "NGN", 1500, 3⟩ : BalanceRow).version = 2 + 1 ∧
    UpdateAccountBalance dbAfterFirst 1 "USD" 500 1 = .error .noRows ∧
    UpdateAccountBalance dbAfterFirst 1 "NGN" 500 7 = .error .noRows ∧
    (∃ r2, GetAccountBalanceForUpdate
        { dbBase with balances := [⟨1, "NGN", 1000, 2⟩] } acctCash.id "NGN" =
        some r2 ∧ r2.version = 2) ∧
    (∃ r2, GetAccountBalanceForUpdate
        { dbAfterFirst with balances := [⟨1, "NGN", 1500, 3⟩] }
        acctCash.id "NGN" = some r2 ∧
      r2.version = (⟨1, "NGN", 1000, 2⟩ : BalanceRow).version + 1) := by
  obtain ⟨p1, p2, p3, p4, p5, p6⟩ := balance_version_lifecycle
  refine ⟨?_, ?_, ?_, ?_, ?_, ?_⟩
  · exact p1 dbBase 1 "NGN" 0 ⟨1, "NGN", 0, 1⟩
      { dbBase with balances := [⟨1, "NGN", 0, 1⟩] } (by decide)
  · exact (p2 dbAfterFirst 1 "NGN" 1500 2 ⟨1, "NGN", 1500, 3⟩
      { dbAfterFirst with balances := [⟨1, "NGN", 1500, 3⟩] } (by decide)).1
  · exact p3 dbAfterFirst 1 "USD" 500 1 (by decide)
  · exact p4 dbAfterFirst 1 "NGN" 500 7 ⟨1, "NGN", 1000, 2⟩ (by decide)
      (by decide)
  · exact p5 dbBase acctCash 1000 .debit "NGN"
      { dbBase with balances := [⟨1, "NGN", 1000, 2⟩] } (by decide) (by decide)
  · exact p6 dbAfterFirst acctCash 500 .debit "NGN" ⟨1, "NGN", 1000, 2⟩
      { dbAfterFirst with balances := [⟨1, "NGN", 1500, 3⟩] } (by decide)
      (by decide)

/-- C6: `posted_at` is set iff `status = posted`, as an invariant of
committed databases: promoting a transaction to `posted` through
`UpdateTransactionStatus` stamps `posted_at` with the current instant,
and both posting entry points preserve the invariant — the transitional
`pending` row (whose schema default fills `posted_at` at insert) is
promoted inside the same unit, and every failure rolls the unit back, so
no committed state ever exposes a non-posted row with a posting time. -/
theorem posted_at_iff_posted :
    (∀ (db : DB) (id : Nat) (now : Nat) (t2 : Txn) (db2 : DB),
      UpdateTransactionStatus db id .posted now = .ok (t2, db2) →
      t2.status = .posted ∧ t2.postedAt = some now)
    ∧ (∀ (db : DB) (req : CreateTransactionRequest) (now : Nat),
      postedAtInv db → postedAtInv (createSimpleTransaction db req now).2)
    ∧ (∀ (db : DB) (req : CreateDoubleEntryRequest) (now : Nat),
      postedAtInv db →
      postedAtInv (createDoubleEntryTransaction db req now).2) := by
  refine ⟨?_, ?_, ?_⟩
  · intro db id now t2 db2 h
    obtain ⟨t1, hfind, ht2, _, _⟩ := UpdateTransactionStatus_ok_inv h
    rw [ht2]
    refine ⟨rfl, ?_⟩
    show (if (TxStatus.posted = TxStatus.posted) then some now
      else t1.postedAt) = some now
    rw [if_pos rfl]
  · intro db req now hinv
    cases hp : GetTransactionByIdempotencyKey db req.idempotencyKey with
    | some t =>
      rw [probe_hit_simple hp]
      exact hinv
    | none =>
      cases hr : createSimpleTransaction db req now with
      | mk res db2 =>
        cases res with
        | error e =>
          have hdb := createSimpleTransaction_error_unchanged hr
          show postedAtInv db2
          rw [hdb]
          exact hinv
        | ok t =>
          show postedAtInv db2
          obtain ⟨account, txn, db1, line, db2x, db3, db4, hacct, hct, hcl,
            hub, huts, hdb2⟩ := createSimpleTransaction_ok_inversion hp hr
          obtain ⟨htxn, hdb1⟩ := CreateTransaction_ok_inv hct
          obtain ⟨hline, hdbl, _⟩ := CreateTransactionLine_ok_inv hcl
          obtain ⟨_, htx3, _, _, _, _, _⟩ := updateAccountBalance_ok_char hub
          intro u hu
          have hu4 : u ∈ db4.transactions := by
            rw [hdb2] at hu
            exact hu
          rcases UpdateTransactionStatus_mem huts u hu4 with hut | ⟨hu3, hne⟩
          · obtain ⟨t1, hfind, ht2, _, _⟩ := UpdateTransactionStatus_ok_inv huts
            rw [hut, ht2]
            refine ⟨fun _ => rfl, fun _ => ?_⟩
            show (if (TxStatus.posted = TxStatus.posted) then some now
              else t1.postedAt) ≠ none
            rw [if_pos rfl]
            exact Option.some_ne_none now
          · rw [htx3] at hu3
            have hu1 : u ∈ db1.transactions := by
              rw [hdbl] at hu3
              exact hu3
            have hu0 : u ∈ db.transactions ++ [txn] := by
              rw [hdb1] at hu1
              exact hu1
            rcases List.mem_append.mp hu0 with h0 | h1
            · exact hinv u h0
            · exact absurd (by rw [List.mem_singleton.mp h1]) hne
  · intro db req now hinv
    cases hv : validateDoubleEntryBalance req.entries with
    | some e =>
      rw [validate_fail_double hv]
      exact hinv
    | none =>
      cases hc : validateCurrencyConsistency req.entries with
      | some e =>
        rw [currency_fail_double hv hc]
        exact hinv
      | none =>
        cases hp : GetTransactionByIdempotencyKey db req.idempotencyKey with
        | some t =>
          rw [probe_hit_double hv hc hp]
          exact hinv
        | none =>
          cases hr : createDoubleEntryTransaction db req now with
          | mk res db2 =>
            cases res with
            | error e =>
              have hdb := createDoubleEntryTransaction_error_unchanged hr
              show postedAtInv db2
              rw [hdb]
              exact hinv
            | ok t =>
              show postedAtInv db2
              obtain ⟨_, _, acctMap, txn, db1, db2x, lx, changes, db3, hres,
                hct, hpe, huts, hdb2⟩ :=
                createDoubleEntryTransaction_ok_inversion hp hr
              obtain ⟨htxn, hdb1⟩ := CreateTransaction_ok_inv hct
              obtain ⟨_, htx2, _, _, _, _, _, _⟩ :=
                processEntries_ok_char txn.id acctMap req.entries db1 [] []
                  (db2x, lx, changes) hpe
              have hchar := publishBalanceUpdatedAll_char changes t.id
                (publishTransactionPosted db3 t.id)
              intro u hu
              have hu3 : u ∈ db3.transactions := by
                rw [hdb2] at hu
                rw [hchar.2.1] at hu
                exact hu
              rcases UpdateTransactionStatus_mem huts u hu3 with
                hut | ⟨hu2, hne⟩
              · obtain ⟨t1, hfind, ht2, _, _⟩ :=
                  UpdateTransactionStatus_ok_inv huts
                rw [hut, ht2]
                refine ⟨fun _ => rfl, fun _ => ?_⟩
                show (if (TxStatus.posted = TxStatus.posted) then some now
                  else t1.postedAt) ≠ none
                rw [if_pos rfl]
                exact Option.some_ne_none now
              · rw [htx2] at hu2
                have hu0 : u ∈ db.transactions ++ [txn] := by
                  rw [hdb1] at hu2
                  exact hu2
                rcases List.mem_append.mp hu0 with h0 | h1
                · exact hinv u h0
                · exact absurd (by rw [List.mem_singleton.mp h1]) hne

/-- Witness for C6 at concrete inputs: promotion stamps the posting time,
and both entry points preserve the invariant starting from the empty
tenant database. -/
theorem posted_at_iff_posted_witness :
    ((⟨10, "k1", .posted, some 9⟩ : Txn).status = .posted ∧
      (⟨10, "k1", .posted, some 9⟩ : Txn).postedAt = some 9) ∧
    postedAtInv (createSimpleTransaction dbBase reqSimpleSeed 7).2 ∧
    postedAtInv (createDoubleEntryTransaction dbBase reqBalanced 7).2 := by
  obtain ⟨p1, p2, p3⟩ := posted_at_iff_posted
  refine ⟨?_, ?_, ?_⟩
  · exact p1 dbAfterFirst 10 9 ⟨10, "k1", .posted, some 9⟩
      { dbAfterFirst with transactions := [⟨10, "k1", .posted, some 9⟩] }
      (by decide)
  · exact p2 dbBase reqSimpleSeed 7 (fun t ht => absurd ht (List.not_mem_nil t))
  · exact p3 dbBase reqBalanced 7 (fun t ht => absurd ht (List.not_mem_nil t))

/-- C9 counterexample: two successive postings on the same (account,
currency) append `balance.updated` events whose versions are 1 and 1 —
not 1 and 2 — while the balance row itself has reached version 3; the
event version is the literal 1 passed at the publish call site, not the
row version resulting from the update. -/
theorem balance_event_version_counterexample :
    (dbAfterSecond.events.filter isBalanceUpdatedEvent).map balanceVersionOf =
      [1, 1] ∧
    GetAccountBalanceForUpdate dbAfterSecond 1 "NGN" =
      some ⟨1, "NGN", 1100, 3⟩ ∧
    ¬ (1 : Nat) < 1 ∧ ¬ (1 : Nat) = 3 := by decide

/-- C9 (amended): every `balance.updated` event appended by either posting
entry point carries the constant version 1 — the call sites pass the
literal 1 — so event versions never track the balance row's version and
never increase; stated as preservation of the all-events-version-1
property. -/
theorem balance_event_version_constant_one :
    (∀ (db : DB) (req : CreateTransactionRequest) (now : Nat),
      db.events.all eventVersionOne = true →
      (createSimpleTransaction db req now).2.events.all eventVersionOne =
        true)
    ∧ (∀ (db : DB) (req : CreateDoubleEntryRequest) (now : Nat),
      db.events.all eventVersionOne = true →
      (createDoubleEntryTransaction db req now).2.events.all eventVersionOne =
        true) := by
  constructor
  · intro db req now hall
    cases hp : GetTransactionByIdempotencyKey db req.idempotencyKey with
    | some t =>
      rw [probe_hit_simple hp]
      exact hall
    | none =>
      cases hr : createSimpleTransaction db req now with
      | mk res db2 =>
        cases res with
        | error e =>
          have hdb := createSimpleTransaction_error_unchanged hr
          show db2.events.all eventVersionOne = true
          rw [hdb]
          exact hall
        | ok t =>
          show db2.events.all eventVersionOne = true
          obtain ⟨account, txn, db1, line, db2x, db3, db4, hacct, hct, hcl,
            hub, huts, hdb2⟩ := createSimpleTransaction_ok_inversion hp hr
          obtain ⟨htxn, hdb1⟩ := CreateTransaction_ok_inv hct
          obtain ⟨hline, hdbl, _⟩ := CreateTransactionLine_ok_inv hcl
          obtain ⟨_, _, _, hev3, _, _, _⟩ := updateAccountBalance_ok_char hub
          obtain ⟨t1, hfind, ht2x, hdb4, _⟩ :=
            UpdateTransactionStatus_ok_inv huts
          have hev4 : db4.events = db.events := by
            rw [hdb4]
            show db3.events = db.events
            rw [hev3, hdbl]
            show db1.events = db.events
            rw [hdb1]
          have hevd : db2.events =
              (db4.events ++ [⟨t.id, .transactionPosted t.id⟩]) ++
              [⟨account.id, EventBody.balanceUpdated ⟨account.id,
                req.currency, balOf db2x account.id req.currency,
                calculateNewBalance (balOf db2x account.id req.currency)
                  req.amount req.side account.accountType,
                calculateNewBalance (balOf db2x account.id req.currency)
                  req.amount req.side account.accountType -
                  balOf db2x account.id req.currency, t.id, 1⟩⟩] := by
            rw [hdb2]
            rfl
          rw [hevd]
          apply List.all_eq_true.mpr
          intro e he
          rcases List.mem_append.mp he with he1 | hbu
          · rcases List.mem_append.mp he1 with he0 | htp
            · apply List.all_eq_true.mp hall e
              rw [← hev4]
              exact he0
            · rw [List.mem_singleton.mp htp]
              rfl
          · rw [List.mem_singleton.mp hbu]
            rfl
  · intro db req now hall
    cases hv : validateDoubleEntryBalance req.entries with
    | some e =>
      rw [validate_fail_double hv]
      exact hall
    | none =>
      cases hc : validateCurrencyConsistency req.entries with
      | some e =>
        rw [currency_fail_double hv hc]
        exact hall
      | none =>
        cases hp : GetTransactionByIdempotencyKey db req.idempotencyKey with
        | some t =>
          rw [probe_hit_double hv hc hp]
          exact hall
        | none =>
          cases hr : createDoubleEntryTransaction db req now with
          | mk res db2 =>
            cases res with
            | error e =>
              have hdb := createDoubleEntryTransaction_error_unchanged hr
              show db2.events.all eventVersionOne = true
              rw [hdb]
              exact hall
            | ok t =>
              show db2.events.all eventVersionOne = true
              obtain ⟨_, _, acctMap, txn, db1, db2x, lx, changes, db3, hres,
                hct, hpe, huts, hdb2⟩ :=
                createDoubleEntryTransaction_ok_inversion hp hr
              obtain ⟨htxn, hdb1⟩ := CreateTransaction_ok_inv hct
              obtain ⟨hevpe, _, _, _, _, _, _, _⟩ :=
                processEntries_ok_char txn.id acctMap req.entries db1 [] []
                  (db2x, lx, changes) hpe
              obtain ⟨t1, hfind, ht2x, hdb3, _⟩ :=
                UpdateTransactionStatus_ok_inv huts
              have hevpe2 : db2x.events = db1.events := hevpe
              have hev3 : db3.events = db.events := by
                rw [hdb3]
                show db2x.events = db.events
                rw [hevpe2]
                show db1.events = db.events
                rw [hdb1]
              have hchar := publishBalanceUpdatedAll_char changes t.id
                (publishTransactionPosted db3 t.id)
              have hevd : db2.events =
                  (db3.events ++ [⟨t.id, .transactionPosted t.id⟩]) ++
                  changes.map (fun p => (⟨p.1, .balanceUpdated ⟨p.1,
                    p.2.currency, p.2.oldBalance, p.2.newBalance,
                    p.2.newBalance - p.2.oldBalance, t.id, 1⟩⟩ :
                    EventRow)) := by
                rw [hdb2]
                exact hchar.1
              rw [hevd]
              apply List.all_eq_true.mpr
              intro e he
              rcases List.mem_append.mp he with he1 | hbu
              · rcases List.mem_append.mp he1 with he0 | htp
                · apply List.all_eq_true.mp hall e
                  rw [← hev3]
                  exact he0
                · rw [List.mem_singleton.mp htp]
                  rfl
              · obtain ⟨p, hpm, hpe2⟩ := List.mem_map.mp hbu
                rw [← hpe2]
                rfl

/-- Witness for C9's amended theorem: starting from the empty event log,
both entry points leave every `balance.updated` event at version 1. -/
theorem balance_event_version_constant_one_witness :
    (createSimpleTransaction dbBase reqSimpleSeed 7).2.events.all
      eventVersionOne = true ∧
    (createDoubleEntryTransaction dbBase reqBalanced 7).2.events.all
      eventVersionOne = true := by
  obtain ⟨p1, p2⟩ := balance_event_version_constant_one
  exact ⟨p1 dbBase reqSimpleSeed 7 (by decide),
    p2 dbBase reqBalanced 7 (by decide)⟩

/-- C3: `CreateDoubleEntryTransaction` rejects fewer than 2 entries with
`ErrEmptyTransactionLines`, balanced-length requests with unequal debit
and credit totals (exact decimal equality, no tolerance) with
`ErrUnbalancedTransaction`, and mixed currencies with
`ErrInvalidCurrency`; a fresh request containing a non-positive amount
fails inside the unit on the schema's `CHECK (amount > 0)`; and every
error return leaves the database unchanged. -/
theorem double_entry_validation_rejections :
    (∀ (db : DB) (req : CreateDoubleEntryRequest) (now : Nat),
      req.entries.length < 2 →
      createDoubleEntryTransaction db req now =
        (.error .emptyTransactionLines, db))
    ∧ (∀ (db : DB) (req : CreateDoubleEntryRequest) (now : Nat),
      2 ≤ req.entries.length →
      ¬ debitTotal req.entries = creditTotal req.entries →
      createDoubleEntryTransaction db req now =
        (.error .unbalancedTransaction, db))
    ∧ (∀ (db : DB) (req : CreateDoubleEntryRequest) (now : Nat)
      (e1 e2 : TransactionLineEntry),
      validateDoubleEntryBalance req.entries = none →
      e1 ∈ req.entries → e2 ∈ req.entries → ¬ e1.currency = e2.currency →
      createDoubleEntryTransaction db req now =
        (.error .invalidCurrency, db))
    ∧ (∀ (db : DB) (req : CreateDoubleEntryRequest) (now : Nat)
      (en : TransactionLineEntry),
      GetTransactionByIdempotencyKey db req.idempotencyKey = none →
      en ∈ req.entries → en.amount ≤ 0 →
      ∃ err, (createDoubleEntryTransaction db req now).1 = .error err)
    ∧ (∀ (db : DB) (req : CreateDoubleEntryRequest) (now : Nat)
      (e : TxError) (db2 : DB),
      createDoubleEntryTransaction db req now = (.error e, db2) →
      db2 = db) := by
  refine ⟨?_, ?_, ?_, ?_, ?_⟩
  · intro db req now hlen
    apply validate_fail_double
    unfold validateDoubleEntryBalance
    rw [if_pos hlen]
  · intro db req now hlen hne
    apply validate_fail_double
    unfold validateDoubleEntryBalance
    rw [if_neg (not_lt.mpr hlen), if_pos hne]
  · intro db req now e1 e2 hv he1 he2 hne
    apply currency_fail_double hv
    cases hes : req.entries with
    | nil =>
      rw [hes] at he1
      exact absurd he1 (List.not_mem_nil e1)
    | cons e0 rest =>
      rw [hes] at he1 he2
      have hany : (rest.any fun e => e.currency ≠ e0.currency) = true := by
        by_cases h10 : e1.currency = e0.currency
        · have h20 : ¬ e2.currency = e0.currency := fun hcc =>
            hne (by rw [h10, hcc])
          have he2r : e2 ∈ rest := by
            rcases List.mem_cons.mp he2 with h | h
            · exact absurd (by rw [h]) h20
            · exact h
          exact List.any_eq_true.mpr ⟨e2, he2r, by exact decide_eq_true h20⟩
        · have he1r : e1 ∈ rest := by
            rcases List.mem_cons.mp he1 with h | h
            · exact absurd (by rw [h]) h10
            · exact h
          exact List.any_eq_true.mpr ⟨e1, he1r, by exact decide_eq_true h10⟩
      unfold validateCurrencyConsistency
      dsimp only
      rw [if_pos hany]
  · intro db req now en hprobe hen hneg
    unfold createDoubleEntryTransaction
    split
    next => exact ⟨_, rfl⟩
    next hvv =>
      split
      next => exact ⟨_, rfl⟩
      next hcc =>
        split
        next existing hpr =>
          rw [hprobe] at hpr
          cases hpr
        next =>
          split
          next => exact ⟨_, rfl⟩
          next acctMap hres =>
            split
            next => exact ⟨_, rfl⟩
            next txn db1 hct =>
              split
              next => exact ⟨_, rfl⟩
              next db2x lxx changess hpe =>
                exact absurd hpe (processEntries_not_ok_of_nonpos txn.id
                  acctMap req.entries db1 [] [] (db2x, lxx, changess)
                  ⟨en, hen, hneg⟩)
  · intro db req now e db2 h
    exact createDoubleEntryTransaction_error_unchanged h

/-- Witness for C3 at concrete inputs: a one-line request, an unbalanced
request, a mixed-currency request, and a zero-amount request are all
rejected with the right error and no state change. -/
theorem double_entry_validation_rejections_witness :
    createDoubleEntryTransaction dbBase
      ⟨"w1", [⟨"1000", 100, .debit, "NGN"⟩]⟩ 9 =
      (.error .emptyTransactionLines, dbBase) ∧
    createDoubleEntryTransaction dbBase reqUnbalanced 9 =
      (.error .unbalancedTransaction, dbBase) ∧
    createDoubleEntryTransaction dbBase reqMixed 9 =
      (.error .invalidCurrency, dbBase) ∧
    (∃ err, (createDoubleEntryTransaction dbBase reqZeroAmount 9).1 =
      .error err) ∧
    (createDoubleEntryTransaction dbBase reqMixed 9).2 = dbBase := by
  obtain ⟨p1, p2, p3, p4, p5⟩ := double_entry_validation_rejections
  refine ⟨?_, ?_, ?_, ?_, ?_⟩
  · exact p1 dbBase ⟨"w1", [⟨"1000", 100, .debit, "NGN"⟩]⟩ 9 (by decide)
  · exact p2 dbBase reqUnbalanced 9 (by decide) (by decide)
  · exact p3 dbBase reqMixed 9 ⟨"1000", 100, .debit, "NGN"⟩
      ⟨"2000", 100, .credit, "USD"⟩ (by decide) (by decide) (by decide)
      (by decide)
  · exact p4 dbBase reqZeroAmount 9 ⟨"1000", 0, .debit, "NGN"⟩ (by decide)
      (by decide) (by decide)
  · exact p5 dbBase reqMixed 9 .invalidCurrency
      (createDoubleEntryTransaction dbBase reqMixed 9).2 (by decide)

theorem lastHitFrom_mem (m : List (String × Account)) (a : Nat)
    (e2 : TransactionLineEntry) :
    ∀ (es : List TransactionLineEntry) (s : Option TransactionLineEntry),
      lastHitFrom m s es a = some e2 →
      (e2 ∈ es ∧ entryKey m e2 = some a) ∨ s = some e2 := by
  intro es
  induction es with
  | nil =>
    intro s h
    exact Or.inr h
  | cons e rest ih =>
    intro s h
    unfold lastHitFrom at h
    rcases ih _ h with ⟨hmem, hkey⟩ | hs
    · exact Or.inl ⟨List.mem_cons_of_mem e hmem, hkey⟩
    · cases hhit : (entryKey m e == some a) with
      | true =>
        rw [if_pos hhit] at hs
        injection hs with hs2
        left
        refine ⟨?_, ?_⟩
        · rw [← hs2]
          exact List.mem_cons_self e rest
        · rw [← hs2]
          exact beq_iff_eq.mp hhit
      | false =>
        rw [if_neg (by simp [hhit])] at hs
        exact Or.inr hs

theorem lastHitEntry_mem {m : List (String × Account)} {a : Nat}
    {es : List TransactionLineEntry} {e2 : TransactionLineEntry}
    (h : lastHitEntry m es a = some e2) :
    e2 ∈ es ∧ entryKey m e2 = some a := by
  rcases lastHitFrom_mem m a e2 es none h with hl | hs
  · exact hl
  · cases hs

/-- C5: a transaction committed by either entry point is `posted` and its
events append within the same unit: the event log grows by exactly one
`transaction.posted` event for the new transaction plus exactly one
`balance.updated` event per distinct (account, currency) of its new
lines (and none for any other pair), while every error path returns the
database unchanged — a reader sees the whole posting with its events or
none of it. -/
theorem posting_events_atomic_and_unique :
    (∀ (db : DB) (req : CreateTransactionRequest) (now : Nat) (t : Txn)
      (db2 : DB),
      GetTransactionByIdempotencyKey db req.idempotencyKey = none →
      createSimpleTransaction db req now = (.ok t, db2) →
      t.status = .posted ∧
      ∃ account newEvents,
        GetAccountByCode db req.accountCode = some account ∧
        db2.events = db.events ++ newEvents ∧
        newEvents.countP (isTransactionPostedFor t.id) = 1 ∧
        newEvents.countP (isBalanceUpdatedFor account.id req.currency) = 1)
    ∧ (∀ (db : DB) (req : CreateDoubleEntryRequest) (now : Nat) (t : Txn)
      (db2 : DB),
      GetTransactionByIdempotencyKey db req.idempotencyKey = none →
      createDoubleEntryTransaction db req now = (.ok t, db2) →
      t.status = .posted ∧
      ∃ newLines newEvents,
        db2.lines = db.lines ++ newLines ∧
        db2.events = db.events ++ newEvents ∧
        newEvents.countP (isTransactionPostedFor t.id) = 1 ∧
        ∀ (a : Nat) (c : String),
          newEvents.countP (isBalanceUpdatedFor a c) =
            if newLines.any (fun l => l.accountId == a && l.currency == c)
            then 1 else 0)
    ∧ (∀ (db : DB) (req : CreateTransactionRequest) (now : Nat)
      (e : TxError) (db2 : DB),
      createSimpleTransaction db req now = (.error e, db2) → db2 = db)
    ∧ (∀ (db : DB) (req : CreateDoubleEntryRequest) (now : Nat)
      (e : TxError) (db2 : DB),
      createDoubleEntryTransaction db req now = (.error e, db2) →
      db2 = db) := by
  refine ⟨?_, ?_, ?_, ?_⟩
  · intro db req now t db2 hprobe h
    obtain ⟨account, txn, db1, line, db2x, db3, db4, hacct, hct, hcl, hub,
      huts, hdb2⟩ := createSimpleTransaction_ok_inversion hprobe h
    obtain ⟨htxn, hdb1⟩ := CreateTransaction_ok_inv hct
    obtain ⟨hline, hdbl, _⟩ := CreateTransactionLine_ok_inv hcl
    obtain ⟨_, _, _, hev3, _, _, _⟩ := updateAccountBalance_ok_char hub
    obtain ⟨t1, hfind, ht2x, hdb4x, _⟩ := UpdateTransactionStatus_ok_inv huts
    have hev4 : db4.events = db.events := by
      rw [hdb4x]
      show db3.events = db.events
      rw [hev3, hdbl]
      show db1.events = db.events
      rw [hdb1]
    refine ⟨by rw [ht2x], account,
      [⟨t.id, .transactionPosted t.id⟩,
       ⟨account.id, EventBody.balanceUpdated ⟨account.id, req.currency,
         balOf db2x account.id req.currency,
         calculateNewBalance (balOf db2x account.id req.currency) req.amount
           req.side account.accountType,
         calculateNewBalance (balOf db2x account.id req.currency) req.amount
           req.side account.accountType -
           balOf db2x account.id req.currency, t.id, 1⟩⟩],
      hacct, ?_, ?_, ?_⟩
    · have hevd : db2.events =
          (db4.events ++ [⟨t.id, .transactionPosted t.id⟩]) ++
          [⟨account.id, EventBody.balanceUpdated ⟨account.id, req.currency,
            balOf db2x account.id req.currency,
            calculateNewBalance (balOf db2x account.id req.currency)
              req.amount req.side account.accountType,
            calculateNewBalance (balOf db2x account.id req.currency)
              req.amount req.side account.accountType -
              balOf db2x account.id req.currency, t.id, 1⟩⟩] := by
        rw [hdb2]
        rfl
      rw [hevd, hev4, List.append_assoc]
      rfl
    · simp [List.countP_cons, isTransactionPostedFor]
    · simp [List.countP_cons, isBalanceUpdatedFor]
  · intro db req now t db2 hprobe h
    obtain ⟨hvb, hvc, acctMap, txn, db1, db2x, lx, changes, db3, hres, hct,
      hpe, huts, hdb2⟩ := createDoubleEntryTransaction_ok_inversion hprobe h
    obtain ⟨htxn, hdb1⟩ := CreateTransaction_ok_inv hct
    obtain ⟨hevpe, htxpe, haccpe, ⟨delta, hlx, hlines2x, hdeltaany⟩, hhas,
      hnodup, hcur, hlast⟩ :=
      processEntries_ok_char txn.id acctMap req.entries db1 [] []
        (db2x, lx, changes) hpe
    obtain ⟨t1, hfind, ht2x, hdb3x, _⟩ := UpdateTransactionStatus_ok_inv huts
    have hnodupc : keysNodup changes := hnodup (by unfold keysNodup; simp)
    have hchar := publishBalanceUpdatedAll_char changes t.id
      (publishTransactionPosted db3 t.id)
    have hev3 : db3.events = db.events := by
      rw [hdb3x]
      show db2x.events = db.events
      have h1 : db2x.events = db1.events := hevpe
      rw [h1, hdb1]
    have hlin3 : db3.lines = db.lines ++ delta := by
      rw [hdb3x]
      show db2x.lines = db.lines ++ delta
      have h1 : db2x.lines = db1.lines ++ delta := hlines2x
      rw [h1, hdb1]
    refine ⟨by rw [ht2x], delta,
      [⟨t.id, .transactionPosted t.id⟩] ++ changes.map (fun p =>
        (⟨p.1, .balanceUpdated ⟨p.1, p.2.currency, p.2.oldBalance,
          p.2.newBalance, p.2.newBalance - p.2.oldBalance, t.id, 1⟩⟩ :
          EventRow)), ?_, ?_, ?_, ?_⟩
    · have hl2 : db2.lines = db3.lines := by
        rw [hdb2]
        exact hchar.2.2.1
      rw [hl2, hlin3]
    · have he2 : db2.events =
          (db3.events ++ [⟨t.id, .transactionPosted t.id⟩]) ++
          changes.map (fun p => (⟨p.1, .balanceUpdated ⟨p.1, p.2.currency,
            p.2.oldBalance, p.2.newBalance,
            p.2.newBalance - p.2.oldBalance, t.id, 1⟩⟩ : EventRow)) := by
        rw [hdb2]
        exact hchar.1
      rw [he2, hev3, List.append_assoc]
    · rw [List.countP_append]
      have h1 : ([(⟨t.id, EventBody.transactionPosted t.id⟩ :
          EventRow)]).countP (isTransactionPostedFor t.id) = 1 := by
        simp [List.countP_cons, isTransactionPostedFor]
      have h2 : (changes.map (fun p => (⟨p.1, .balanceUpdated ⟨p.1,
          p.2.currency, p.2.oldBalance, p.2.newBalance,
          p.2.newBalance - p.2.oldBalance, t.id, 1⟩⟩ :
          EventRow))).countP (isTransactionPostedFor t.id) = 0 := by
        apply List.countP_eq_zero.mpr
        intro e he
        obtain ⟨p, hp, hpe2⟩ := List.mem_map.mp he
        rw [← hpe2]
        simp [isTransactionPostedFor]
      rw [h1, h2]
    · intro a c
      rw [List.countP_append]
      have h1 : ([(⟨t.id, EventBody.transactionPosted t.id⟩ :
          EventRow)]).countP (isBalanceUpdatedFor a c) = 0 := by
        simp [List.countP_cons, isBalanceUpdatedFor]
      rw [h1, countP_balanceEvents t.id a c changes hnodupc]
      simp only [Nat.zero_add]
      cases hdel : delta.any (fun l => l.accountId == a && l.currency == c)
        with
      | true =>
        have hesany : req.entries.any (fun e2 =>
            entryKey acctMap e2 == some a && e2.currency == c) = true := by
          rw [← hdeltaany a c]
          exact hdel
        obtain ⟨e3, he3, hpe3⟩ := List.any_eq_true.mp hesany
        have hpe3x : (entryKey acctMap e3 == some a) = true ∧
            (e3.currency == c) = true := by
          rw [Bool.and_eq_true] at hpe3
          exact hpe3
        have hkey3 : (entryKey acctMap e3 == some a) = true := hpe3x.1
        have hcur3 : e3.currency = c := beq_iff_eq.mp hpe3x.2
        have hhasc : hasChange changes a = true := by
          rw [hhas a, Bool.or_eq_true]
          right
          exact List.any_eq_true.mpr ⟨e3, he3, by exact hkey3⟩
        obtain ⟨ch, hch⟩ := (hasChange_iff_lookup changes a).mp hhasc
        rw [hch]
        obtain ⟨e0, rest0, hes0, hall0⟩ := validateCurrencyConsistency_none hvc
        obtain ⟨pch, hpchm, hpch1, hpch2⟩ := lookupChange_key hch
        have hchcur : ch.currency = e0.currency := by
          have hx := hcur (fun scur => scur = e0.currency)
            (fun p hp => absurd hp (List.not_mem_nil p))
            (fun e2 he2 => hall0 e2 he2) pch hpchm
          rw [hpch2] at hx
          exact hx
        have he3cur : e3.currency = e0.currency := hall0 e3 he3
        have hcc : ch.currency = c := by
          rw [hchcur, ← he3cur]
          exact hcur3
        show (if ch.currency = c then 1 else 0) = if (true = true) then 1
          else 0
        rw [if_pos hcc]
        simp
      | false =>
        rw [if_neg (by simp)]
        cases hch : lookupChange changes a with
        | none => rfl
        | some ch =>
          rcases hlast a ch hch with ⟨_, habs⟩ | hright
          · cases habs
          · obtain ⟨e2x, accx, hlhe, hlc, haid, hnb, hcurx⟩ := hright
            have hccne : ¬ ch.currency = c := by
              intro hcc
              obtain ⟨hmem2, hkey2⟩ := lastHitEntry_mem hlhe
              have hany2 : req.entries.any (fun e2 =>
                  entryKey acctMap e2 == some a && e2.currency == c) =
                  true :=
                List.any_eq_true.mpr ⟨e2x, hmem2, by
                  rw [Bool.and_eq_true]
                  refine ⟨by rw [hkey2]; exact beq_self_eq_true (some a), ?_⟩
                  exact beq_iff_eq.mpr (by rw [← hcurx]; exact hcc)⟩
              have hd2 : delta.any (fun l =>
                  l.accountId == a && l.currency == c) = true := by
                rw [hdeltaany a c]
                exact hany2
              rw [hdel] at hd2
              cases hd2
            show (if ch.currency = c then 1 else 0) = 0
            rw [if_neg hccne]
  · intro db req now e db2 h
    exact createSimpleTransaction_error_unchanged h
  · intro db req now e db2 h
    exact createDoubleEntryTransaction_error_unchanged h

/-- Witness for C5 at concrete inputs: the seed simple posting and the
balanced double-entry posting each append one `transaction.posted` event
and one `balance.updated` event per touched (account, currency), and a
failing simple posting (unknown account) leaves the database unchanged. -/
theorem posting_events_atomic_and_unique_witness :
    ((⟨10, "k1", .posted, some 7⟩ : Txn).status = .posted ∧
      ∃ account newEvents,
        GetAccountByCode dbBase reqSimpleSeed.accountCode = some account ∧
        dbAfterFirst.events = dbBase.events ++ newEvents ∧
        newEvents.countP
          (isTransactionPostedFor (⟨10, "k1", .posted, some 7⟩ : Txn).id) =
          1 ∧
        newEvents.countP
          (isBalanceUpdatedFor account.id reqSimpleSeed.currency) = 1) ∧
    ((⟨10, "k3", .posted, some 7⟩ : Txn).status = .posted ∧
      ∃ newLines newEvents,
        (createDoubleEntryTransaction dbBase reqBalanced 7).2.lines =
          dbBase.lines ++ newLines ∧
        (createDoubleEntryTransaction dbBase reqBalanced 7).2.events =
          dbBase.events ++ newEvents ∧
        newEvents.countP
          (isTransactionPostedFor (⟨10, "k3", .posted, some 7⟩ : Txn).id) =
          1 ∧
        ∀ (a : Nat) (c : String),
          newEvents.countP (isBalanceUpdatedFor a c) =
            if newLines.any (fun l => l.accountId == a && l.currency == c)
            then 1 else 0) ∧
    (createSimpleTransaction dbBase ⟨"kz", "9999", 5, .debit, "NGN"⟩ 9).2 =
      dbBase := by
  obtain ⟨p1, p2, p3, p4⟩ := posting_events_atomic_and_unique
  refine ⟨?_, ?_, ?_⟩
  · exact p1 dbBase reqSimpleSeed 7 ⟨10, "k1", .posted, some 7⟩ dbAfterFirst
      (by decide) (by decide)
  · exact p2 dbBase reqBalanced 7 ⟨10, "k3", .posted, some 7⟩
      (createDoubleEntryTransaction dbBase reqBalanced 7).2 (by decide)
      (by decide)
  · exact p3 dbBase ⟨"kz", "9999", 5, .debit, "NGN"⟩ 9 .invalidAccount
      (createSimpleTransaction dbBase ⟨"kz", "9999", 5, .debit, "NGN"⟩ 9).2
      (by decide)

/-- C10: when one request's entries hit the same account twice or more,
the single `balance.updated` event emitted for that account reflects only
the LAST such entry: its payload satisfies
`new_balance = calculateNewBalance(previous_balance, last.amount,
last.side, type)` and `balance_change = signed_delta(type, last.side) ·
last.amount` — the last line's signed amount, not the account's net
change over the whole transaction. -/
theorem duplicate_account_event_last_line
    {db : DB} {req : CreateDoubleEntryRequest} {now : Nat} {t : Txn}
    {db2 : DB} {acctMap : List (String × Account)} {a : Nat}
    {e2 : TransactionLineEntry} {acc : Account}
    (hprobe : GetTransactionByIdempotencyKey db req.idempotencyKey = none)
    (h : createDoubleEntryTransaction db req now = (.ok t, db2))
    (hres : resolveAccounts db req.entries [] = .ok acctMap)
    (hdup : 2 ≤ req.entries.countP
      (fun e => entryKey acctMap e == some a))
    (hlhe : lastHitEntry acctMap req.entries a = some e2)
    (hlc : lookupCode acctMap e2.accountCode = some acc) :
    (db2.events.drop db.events.length).countP (isBalanceUpdatedForAcct a) =
      1 ∧
    ∀ ev ∈ db2.events.drop db.events.length,
      isBalanceUpdatedForAcct a ev = true →
      ∃ p, ev.body = .balanceUpdated p ∧
        p.newBalance = calculateNewBalance p.previousBalance e2.amount
          e2.side acc.accountType ∧
        p.balanceChange = signedDelta acc.accountType e2.side * e2.amount ∧
        p.currency = e2.currency := by
  obtain ⟨hvb, hvc, acctMap2, txn, db1, db2x, lx, changes, db3, hres2, hct,
    hpe, huts, hdb2⟩ := createDoubleEntryTransaction_ok_inversion hprobe h
  rw [hres] at hres2
  injection hres2 with hmeq
  subst hmeq
  obtain ⟨htxn, hdb1⟩ := CreateTransaction_ok_inv hct
  obtain ⟨hevpe, htxpe, haccpe, ⟨delta, hlx, hlines2x, hdeltaany⟩, hhas,
    hnodup, hcur, hlast⟩ :=
    processEntries_ok_char txn.id acctMap req.entries db1 [] []
      (db2x, lx, changes) hpe
  obtain ⟨t1, hfind, ht2x, hdb3x, _⟩ := UpdateTransactionStatus_ok_inv huts
  have hnodupc : keysNodup changes := hnodup (by unfold keysNodup; simp)
  have hchar := publishBalanceUpdatedAll_char changes t.id
    (publishTransactionPosted db3 t.id)
  have hev3 : db3.events = db.events := by
    rw [hdb3x]
    show db2x.events = db.events
    have h1 : db2x.events = db1.events := hevpe
    rw [h1, hdb1]
  have hev2 : db2.events = db.events ++
      ([⟨t.id, .transactionPosted t.id⟩] ++ changes.map (fun p =>
        (⟨p.1, .balanceUpdated ⟨p.1, p.2.currency, p.2.oldBalance,
          p.2.newBalance, p.2.newBalance - p.2.oldBalance, t.id, 1⟩⟩ :
          EventRow))) := by
    have he2 : db2.events =
        (db3.events ++ [⟨t.id, .transactionPosted t.id⟩]) ++
        changes.map (fun p => (⟨p.1, .balanceUpdated ⟨p.1, p.2.currency,
          p.2.oldBalance, p.2.newBalance,
          p.2.newBalance - p.2.oldBalance, t.id, 1⟩⟩ : EventRow)) := by
      rw [hdb2]
      exact hchar.1
    rw [he2, hev3, List.append_assoc]
  have hdrop : db2.events.drop db.events.length =
      [⟨t.id, .transactionPosted t.id⟩] ++ changes.map (fun p =>
        (⟨p.1, .balanceUpdated ⟨p.1, p.2.currency, p.2.oldBalance,
          p.2.newBalance, p.2.newBalance - p.2.oldBalance, t.id, 1⟩⟩ :
          EventRow)) := by
    rw [hev2]
    exact List.drop_left db.events _
  have hlksome : ∃ ch, lookupChange changes a = some ch := by
    have hpos : 0 < req.entries.countP
        (fun e => entryKey acctMap e == some a) :=
      Nat.lt_of_lt_of_le (by decide) hdup
    obtain ⟨e3, he3, hpe3⟩ := List.countP_pos_iff.mp hpos
    have hhasc : hasChange changes a = true := by
      rw [hhas a, Bool.or_eq_true]
      right
      exact List.any_eq_true.mpr ⟨e3, he3, by exact hpe3⟩
    exact (hasChange_iff_lookup changes a).mp hhasc
  constructor
  · rw [hdrop, List.countP_append]
    have h1 : ([(⟨t.id, EventBody.transactionPosted t.id⟩ :
        EventRow)]).countP (isBalanceUpdatedForAcct a) = 0 := by
      simp [List.countP_cons, isBalanceUpdatedForAcct]
    rw [h1, countP_balanceEvents_acct t.id a changes hnodupc]
    obtain ⟨ch, hch⟩ := hlksome
    rw [hch]
    rfl
  · intro ev hev hba
    rw [hdrop] at hev
    rcases List.mem_append.mp hev with htp | hmap
    · rw [List.mem_singleton.mp htp] at hba
      cases hba
    · obtain ⟨p, hp, hpev⟩ := List.mem_map.mp hmap
      have hpa : p.1 = a := by
        rw [← hpev] at hba
        exact beq_iff_eq.mp hba
      have hlkp : lookupChange changes a = some p.2 := by
        rw [← hpa]
        exact lookup_of_mem_nodup hnodupc hp
      rcases hlast a p.2 hlkp with ⟨_, habs⟩ | hright
      · cases habs
      · obtain ⟨e2x, accx, hlhe2, hlc2, haid2, hnb2, hcur2⟩ := hright
        rw [hlhe] at hlhe2
        injection hlhe2 with he2eq
        subst he2eq
        rw [hlc] at hlc2
        injection hlc2 with haeq
        subst haeq
        refine ⟨⟨p.1, p.2.currency, p.2.oldBalance, p.2.newBalance,
          p.2.newBalance - p.2.oldBalance, t.id, 1⟩, ?_, ?_, ?_, ?_⟩
        · rw [← hpev]
        · exact hnb2
        · show p.2.newBalance - p.2.oldBalance = _
          rw [hnb2, calculateNewBalance_eq_signedDelta]
          ring
        · exact hcur2

/-- Witness for C10 at concrete inputs: in `reqDupAccount` the cash
account is debited 100 and then 50; the single `balance.updated` event
for it describes only the last line — a balance change of
`signed_delta(asset, debit) · 50 = 50`, not the net 150. -/
theorem duplicate_account_event_last_line_witness :
    ((createDoubleEntryTransaction dbBase reqDupAccount 7).2.events.drop
      dbBase.events.length).countP (isBalanceUpdatedForAcct 1) = 1 ∧
    ∀ ev ∈ (createDoubleEntryTransaction dbBase
        reqDupAccount 7).2.events.drop dbBase.events.length,
      isBalanceUpdatedForAcct 1 ev = true →
      ∃ p, ev.body = .balanceUpdated p ∧
        p.newBalance = calculateNewBalance p.previousBalance
          (⟨"1000", 50, .debit, "NGN"⟩ : TransactionLineEntry).amount
          (⟨"1000", 50, .debit, "NGN"⟩ : TransactionLineEntry).side
          acctCash.accountType ∧
        p.balanceChange = signedDelta acctCash.accountType
          (⟨"1000", 50, .debit, "NGN"⟩ : TransactionLineEntry).side *
          (⟨"1000", 50, .debit, "NGN"⟩ : TransactionLineEntry).amount ∧
        p.currency =
          (⟨"1000", 50, .debit, "NGN"⟩ : TransactionLineEntry).currency := by
  exact @duplicate_account_event_last_line dbBase reqDupAccount 7
    ⟨10, "k2", .posted, some 7⟩
    (createDoubleEntryTransaction dbBase reqDupAccount 7).2
    [("1000", acctCash), ("2000", acctPayable)] 1
    ⟨"1000", 50, .debit, "NGN"⟩ acctCash (by decide) (by decide)
    (by decide) (by decide) (by decide) (by decide)

end LedgerService
